import Mathlib

/-!
# Verification of the gridio-web fetch/merge pipelines

Shallow embedding of the data-normalization scripts of the repository
(`scripts/fetch_production.py`, `scripts/fetch_consumption.py`,
`scripts/fetch_prices.py`, `scripts/split_frequency_data.py`) and proofs of
the specification claims about them.

Modelling conventions:
* Python floats are modelled as rationals (`ℚ`); the numeric values involved
  in the claims are exactly representable, so no rounding model is needed.
* JSON field values are modelled by `JVal` (null / number / string / bool),
  which is enough to model Python truthiness (`x or 0.0`) and `float(x)`.
* Timestamps: ISO-8601 strings are parsed by `fromIso` (the common
  `YYYY-MM-DD[THH:MM:SS[.frac]][±HH:MM]` shape accepted by
  `datetime.fromisoformat`); instants are measured in seconds since the Unix
  epoch (`Int`).  The `zoneinfo` Europe/Stockholm zone is modelled by the
  current EU daylight-saving rules (UTC+1, UTC+2 between 01:00 UTC of the
  last Sunday of March and 01:00 UTC of the last Sunday of October), the
  rules in force since 1996.
* Fallible Python code (uncaught `ValueError`/`TypeError`) is modelled with
  `Except String`.
-/

set_option linter.unusedVariables false

namespace Gridio

/-! ## Decimal digits and fixed-width rendering -/

/-- The ASCII character of a decimal digit. -/
def digitChar (d : Nat) : Char := Char.ofNat (48 + d % 10)

/-- Digit characters of a natural number, most significant first (fuelled). -/
def natDigitsAux : Nat → Nat → List Char
  | 0, _ => []
  | fuel + 1, n =>
    if n < 10 then [digitChar n]
    else natDigitsAux fuel (n / 10) ++ [digitChar (n % 10)]

/-- Decimal rendering of a natural number. -/
def natRepr (n : Nat) : String := String.mk (natDigitsAux (n + 1) n)

/-- The two digit characters of a number below 100 (zero padded). -/
def pad2Chars (n : Nat) : List Char := [digitChar (n / 10), digitChar (n % 10)]

/-- Zero-padded rendering of a number to 5 digits (for the fractional part of
`"%.5f"`-style formatting). -/
def pad5 (n : Nat) : String :=
  String.mk [digitChar (n / 10000), digitChar (n / 1000 % 10),
    digitChar (n / 100 % 10), digitChar (n / 10 % 10), digitChar (n % 10)]

/-- `HH:MM:SS` character list of a second-of-day count (`strftime("%H:%M:%S")`). -/
def hmsChars (n : Nat) : List Char :=
  pad2Chars (n / 3600) ++ ':' :: (pad2Chars (n / 60 % 60) ++ ':' :: pad2Chars (n % 60))

/-- `HH:MM:SS` string of a second-of-day count. -/
def hmsOfSecs (n : Nat) : String := String.mk (hmsChars n)

/-! ## Structural string primitives

Python's `str.strip`, single-character `str.replace`/`str.split` and slicing
are modelled by structurally recursive functions over the character list (the
core library's `String.trim`/`replace`/`splitOn` are well-founded-recursive
over byte positions, which a proof checker cannot evaluate). -/

/-- `str.strip()` on a character list. -/
def pyStripChars (cs : List Char) : List Char :=
  ((cs.dropWhile Char.isWhitespace).reverse.dropWhile Char.isWhitespace).reverse

/-- `str.strip()`. -/
def pyStrip (s : String) : String := String.mk (pyStripChars s.data)

/-- Replace every occurrence of the character `c` by `rep`
(`str.replace` with a one-character pattern). -/
def replaceChar (c : Char) (rep : List Char) : List Char → List Char
  | [] => []
  | x :: rest =>
    if x = c then rep ++ replaceChar c rep rest else x :: replaceChar c rep rest

/-- `s.replace(c, rep)` for a one-character pattern. -/
def pyReplace (s : String) (c : Char) (rep : String) : String :=
  String.mk (replaceChar c rep.data s.data)

/-- Split at every occurrence of the character `c` (`str.split(c)`;
`splitOnChar c [] = [[]]`, like Python's `"".split(c) == [""]`). -/
def splitOnChar (c : Char) : List Char → List (List Char)
  | [] => [[]]
  | x :: rest =>
    let r := splitOnChar c rest
    if x = c then [] :: r
    else
      match r with
      | [] => [[x]]
      | g :: gs => (x :: g) :: gs

/-! ## Python-style numeric formatting: `f"{x:.5f}"` -/

/-- Round a rational to the nearest integer, ties to even (Python's float
formatting rounding mode; all values appearing in the claims are exact). -/
def roundHalfEven (q : ℚ) : Int :=
  let f : Int := ⌊q⌋
  let r : ℚ := q - f
  if r < 1/2 then f
  else if 1/2 < r then f + 1
  else if f % 2 = 0 then f else f + 1

/-- Model of Python `f"{x:.5f}"`: fixed-point rendering with exactly five
decimal digits. -/
def format5 (q : ℚ) : String :=
  let n : Int := roundHalfEven (q * 100000)
  let sign : String := if n < 0 then "-" else ""
  let a : Nat := n.natAbs
  sign ++ natRepr (a / 100000) ++ "." ++ pad5 (a % 100000)

/-! ## Python `float(string)` (decimal core) -/

/-- Is every character of the list a decimal digit? -/
def allDigits (cs : List Char) : Bool := cs.all fun c => c.isDigit

/-- Numeric value of a list of decimal digit characters. -/
def digitsVal (cs : List Char) : Nat :=
  cs.foldl (fun acc c => 10 * acc + (c.toNat - 48)) 0

/-- Parse an unsigned decimal literal `digits`, `digits.digits`, `.digits` or
`digits.` into a rational. -/
def parseUnsignedDec (cs : List Char) : Option ℚ :=
  match splitOnChar '.' cs with
  | [intPart] =>
    if intPart ≠ [] ∧ allDigits intPart then some (digitsVal intPart) else none
  | [intPart, fracPart] =>
    if (intPart ≠ [] ∨ fracPart ≠ []) ∧ allDigits intPart ∧ allDigits fracPart then
      some ((digitsVal intPart : ℚ) +
        (digitsVal fracPart : ℚ) / ((10 : ℚ) ^ fracPart.length))
    else none
  | _ => none

/-- Model of Python `float(s)` on decimal literals: optional sign around an
unsigned decimal, surrounding whitespace ignored.  (The exotic forms —
exponents, `inf`, `nan`, underscores — do not occur in this system's data and
are modelled as failures.) -/
def strFloat (s : String) : Option ℚ :=
  match pyStripChars s.data with
  | '+' :: rest => parseUnsignedDec rest
  | '-' :: rest => (parseUnsignedDec rest).map Neg.neg
  | rest => parseUnsignedDec rest

/-! ## JSON values, Python truthiness and `float(x)` -/

/-- A JSON field value as the scripts see it. -/
inductive JVal where
  | null : JVal
  | num : ℚ → JVal
  | str : String → JVal
  | bool : Bool → JVal
  deriving DecidableEq

/-- Python truthiness of a field value (`None`, `0.0`, `""`, `False` are
falsy). -/
def JVal.truthy : JVal → Bool
  | .null => false
  | .num q => q ≠ 0
  | .str s => s ≠ ""
  | .bool b => b

/-- Model of Python `a or b` for an optional field value (an absent key reads
as `None`). -/
def pyOr (v : Option JVal) (dflt : JVal) : JVal :=
  match v with
  | none => dflt
  | some w => if w.truthy then w else dflt

/-- Model of Python `float(x)`: numbers and booleans convert; numeric strings
parse (raising `ValueError` otherwise); `None` raises `TypeError`. -/
def pyFloat : JVal → Except String ℚ
  | .null => .error "TypeError"
  | .num q => .ok q
  | .bool b => .ok (if b then 1 else 0)
  | .str s =>
    match strFloat s with
    | some q => .ok q
    | none => .error "ValueError"

/-- Model of the scripts' idiom `float(row.get(name) or 0.0)`. -/
def fieldFloat (v : Option JVal) : Except String ℚ := pyFloat (pyOr v (.num 0))

/-- The value `fieldFloat` produces when it succeeds (`0` placeholder
otherwise); used to state the accumulation theorems. -/
def fieldVal (v : Option JVal) : ℚ := ((fieldFloat v).toOption).getD 0

/-! ## Proleptic Gregorian calendar

Standard civil-from-days / days-from-civil conversions (Unix epoch day 0 =
1970-01-01), used to model `datetime` arithmetic and the Europe/Stockholm
zone rules. -/

/-- Number of days in a month of a given year. -/
def daysInMonth (y m : Int) : Int :=
  if m = 2 then (if y % 4 = 0 ∧ (y % 100 ≠ 0 ∨ y % 400 = 0) then 29 else 28)
  else if m = 4 ∨ m = 6 ∨ m = 9 ∨ m = 11 then 30
  else 31

/-- A valid calendar date. -/
def validDate (y m d : Int) : Prop :=
  1 ≤ m ∧ m ≤ 12 ∧ 1 ≤ d ∧ d ≤ daysInMonth y m

instance (y m d : Int) : Decidable (validDate y m d) := by
  unfold validDate; infer_instance

/-- Days since 1970-01-01 of a civil date (proleptic Gregorian). -/
def daysFromCivil (y m d : Int) : Int :=
  let y' := if m ≤ 2 then y - 1 else y
  let era := y'.ediv 400
  let yoe := y' - era * 400
  let mp := (m + 9).emod 12
  let doy := (153 * mp + 2).ediv 5 + d - 1
  let doe := yoe * 365 + yoe.ediv 4 - yoe.ediv 100 + doy
  era * 146097 + doe - 719468

/-- Civil date `(y, m, d)` of a day count since 1970-01-01. -/
def civilFromDays (z : Int) : Int × Int × Int :=
  let z' := z + 719468
  let era := z'.ediv 146097
  let doe := z' - era * 146097
  let yoe := (doe - doe.ediv 1460 + doe.ediv 36524 - doe.ediv 146096).ediv 365
  let y := yoe + era * 400
  let doy := doe - (365 * yoe + yoe.ediv 4 - yoe.ediv 100)
  let mp := (5 * doy + 2).ediv 153
  let d := doy - (153 * mp + 2).ediv 5 + 1
  let m := mp + (if mp < 10 then 3 else -9)
  (if m ≤ 2 then y + 1 else y, m, d)

/-- Day count of the last Sunday of a 31-day month (March / October). -/
def lastSundayDays (y month : Int) : Int :=
  let last := daysFromCivil y month 31
  last - (last + 4).emod 7

/-! ## Europe/Stockholm (`zoneinfo`) model

EU daylight-saving rules as in force since 1996: the offset is UTC+2 from
01:00 UTC of the last Sunday of March until 01:00 UTC of the last Sunday of
October, and UTC+1 otherwise. -/

/-- Instant (seconds since the epoch) at which DST starts in a given year. -/
def dstStartSecs (y : Int) : Int := 86400 * lastSundayDays y 3 + 3600

/-- Instant at which DST ends in a given year. -/
def dstEndSecs (y : Int) : Int := 86400 * lastSundayDays y 10 + 3600

/-- The (UTC) calendar year containing an instant. -/
def yearOf (t : Int) : Int := (civilFromDays (t.ediv 86400)).1

/-- UTC offset (seconds) of Europe/Stockholm at an instant. -/
def stockholmOffset (t : Int) : Int :=
  if dstStartSecs (yearOf t) ≤ t ∧ t < dstEndSecs (yearOf t) then 7200 else 3600

/-- Local civil time (seconds on the local civil axis) of an instant. -/
def localCivil (t : Int) : Int := t + stockholmOffset t

/-- The `HH:MM:SS` TimeKey of an instant in Europe/Stockholm. -/
def localTimeKey (t : Int) : String := hmsOfSecs ((localCivil t).emod 86400).toNat

/-- Convert a Europe/Stockholm civil time (seconds on the local civil axis)
to the instant it denotes.  Used only at local midnights, which are never
skipped or repeated by the DST rules, so the result is unambiguous. -/
def utcFromLocal (lc : Int) : Int :=
  if stockholmOffset (lc - 7200) = 7200 then lc - 7200 else lc - 3600

/-- Local civil seconds of midnight of a date. -/
def midnightCivil (y m d : Int) : Int := 86400 * daysFromCivil y m d

/-- The day-window resolver (`main` of the fetch scripts): local midnight of
the date and of the next date, both converted to UTC. -/
def dayWindow (y m d : Int) : Int × Int :=
  (utcFromLocal (midnightCivil y m d), utcFromLocal (midnightCivil y m d + 86400))

/-! ## `datetime.fromisoformat` (core grammar) -/

/-- A parsed Python `datetime`: civil fields plus an optional UTC offset in
seconds (`None` for a naive datetime). -/
structure PyDateTime where
  year : Int
  month : Nat
  day : Nat
  hour : Nat
  minute : Nat
  second : Nat
  offset : Option Int
  deriving DecidableEq

/-- Read two decimal digit characters. -/
def read2 : List Char → Option (Nat × List Char)
  | a :: b :: rest =>
    if a.isDigit ∧ b.isDigit then some (10 * (a.toNat - 48) + (b.toNat - 48), rest)
    else none
  | _ => none

/-- Read four decimal digit characters. -/
def read4 (cs : List Char) : Option (Nat × List Char) := do
  let (hi, rest) ← read2 cs
  let (lo, rest') ← read2 rest
  pure (100 * hi + lo, rest')

/-- Read an expected punctuation character. -/
def readChar (c : Char) : List Char → Option (List Char)
  | x :: rest => if x = c then some rest else none
  | _ => none

/-- Read an optional fractional-seconds part `.d{1,6}` (value discarded: the
scripts only use whole-second components). -/
def readFrac : List Char → List Char
  | '.' :: rest =>
    let digs := rest.takeWhile (·.isDigit)
    if 1 ≤ digs.length ∧ digs.length ≤ 6 then rest.dropWhile (·.isDigit) else '.' :: rest
  | cs => cs

/-- Read a UTC offset suffix `±HH:MM`, returning signed seconds. -/
def readOffset : List Char → Option (Int × List Char)
  | sign :: rest =>
    if sign = '+' ∨ sign = '-' then do
      let (h, rest₁) ← read2 rest
      let rest₂ ← readChar ':' rest₁
      let (m, rest₃) ← read2 rest₂
      if h ≤ 23 ∧ m ≤ 59 then
        pure ((if sign = '-' then -1 else 1) * (3600 * (h : Int) + 60 * m), rest₃)
      else none
    else none
  | _ => none

/-- Model of `datetime.fromisoformat` on its common core grammar
`YYYY-MM-DD[(T| )HH:MM:SS[.frac]][±HH:MM]` with range validation (`none`
models a raised `ValueError`). -/
def fromIso (s : String) : Option PyDateTime := do
  let cs := s.data
  let (y, r₁) ← read4 cs
  let r₂ ← readChar '-' r₁
  let (mo, r₃) ← read2 r₂
  let r₄ ← readChar '-' r₃
  let (d, r₅) ← read2 r₄
  if ¬ (1 ≤ mo ∧ mo ≤ 12 ∧ 1 ≤ d ∧ (d : Int) ≤ daysInMonth y mo) then none
  else
    match r₅ with
    | [] => pure ⟨y, mo, d, 0, 0, 0, none⟩
    | sep :: r₆ =>
      if sep = 'T' ∨ sep = ' ' then do
        let (h, r₇) ← read2 r₆
        let r₈ ← readChar ':' r₇
        let (mi, r₉) ← read2 r₈
        let r₁₀ ← readChar ':' r₉
        let (sec, r₁₁) ← read2 r₁₀
        if ¬ (h ≤ 23 ∧ mi ≤ 59 ∧ sec ≤ 59) then none
        else
          match readFrac r₁₁ with
          | [] => pure ⟨y, mo, d, h, mi, sec, none⟩
          | r₁₂ => do
            let (off, r₁₃) ← readOffset r₁₂
            match r₁₃ with
            | [] => pure ⟨y, mo, d, h, mi, sec, some off⟩
            | _ => none
      else none

/-- Second-of-day of a parsed datetime's civil time. -/
def PyDateTime.secOfDay (dt : PyDateTime) : Nat :=
  3600 * dt.hour + 60 * dt.minute + dt.second

/-- Civil seconds (on the axis the datetime is written in) of a parsed
datetime. -/
def PyDateTime.civilSecs (dt : PyDateTime) : Int :=
  86400 * daysFromCivil dt.year dt.month dt.day + dt.secOfDay

/-- The instant denoted by an offset-aware parsed datetime. -/
def PyDateTime.instant (dt : PyDateTime) (off : Int) : Int := dt.civilSecs - off

/-! ## The two `local_time_hms` functions -/

/-- `local_time_hms` of `fetch_production.py` / `fetch_consumption.py`:
take the `HH:MM:SS` component of the string as written (no timezone
conversion), falling back to the last 8 characters when ISO parsing fails. -/
def localTimeHmsPC (value : String) : String :=
  if value = "" then ""
  else
    let normalized := pyReplace (pyStrip value) 'Z' "+00:00"
    match fromIso normalized with
    | some dt => hmsOfSecs dt.secOfDay
    | none =>
      if 8 ≤ value.data.length then String.mk ((value.data.reverse.take 8).reverse)
      else ""

/-- `local_time_hms` of `fetch_prices.py`: parse the string and convert the
denoted instant into Europe/Stockholm (`astimezone`), taking its `HH:MM:SS`;
`none` models the `ValueError` raised on a parse failure.  A naive datetime is
interpreted by `astimezone` in the system zone, modelled here as
Europe/Stockholm, under which conversion leaves the civil time unchanged. -/
def localTimeHmsP (value : String) : Option String :=
  match fromIso (pyReplace (pyStrip value) 'Z' "+00:00") with
  | none => none
  | some dt =>
    match dt.offset with
    | some off => some (localTimeKey (dt.instant off))
    | none => some (hmsOfSecs dt.secOfDay)

/-! ## Insertion-ordered association maps (Python `dict`) -/

/-- Lookup in an association list (Python `d.get(k)` / `d[k]`). -/
def lookupA {κ β : Type} [DecidableEq κ] : List (κ × β) → κ → Option β
  | [], _ => none
  | (k', v) :: rest, k => if k' = k then some v else lookupA rest k

/-- Write a key in an association list: update in place if present, append if
absent (Python `dict` assignment, preserving insertion order). -/
def updateA {κ β : Type} [DecidableEq κ] : List (κ × β) → κ → β → List (κ × β)
  | [], k, v => [(k, v)]
  | (k', v') :: rest, k, v =>
    if k' = k then (k, v) :: rest else (k', v') :: updateA rest k v

/-- Python truthiness test on an optional string key (`if not ts_utc:
continue`): `none` for an absent or empty key. -/
def presentKey : Option String → Option String
  | none => none
  | some s => if s = "" then none else some s

end Gridio

namespace Gridio.Production

/-! ## `fetch_production.py`: `merge_rows` -/

/-- The numeric fields of a production record / bucket. -/
inductive PField where
  | hydro | nuclear | solar | thermal | wind
  | windOffshore | energyStorage | other | total
  deriving DecidableEq, Fintype

/-- A raw production observation: the two timestamp strings and the JSON
numeric fields (read with `row.get`, so each may be absent). -/
structure ProdRow where
  timestampUTC : Option String
  timestamp : Option String
  fields : PField → Option JVal

/-- A merge bucket: display time plus the numeric accumulators. -/
structure PBucket where
  time : String
  vals : PField → ℚ

/-- The all-zero bucket a fresh UTC key is initialized with. -/
def initBucket : PBucket := ⟨"", fun _ => 0⟩

/-- The UTC key a row merges under (`none`: the row is skipped). -/
def keyOf (r : ProdRow) : Option String := presentKey r.timestampUTC

/-- Convert every numeric field of a row (`float(row.get(f) or 0.0)` for each
field, in source order); the first conversion failure aborts with that
error.  Which field's error surfaces is unobservable (the script dies either
way), so this is modelled as: all fields convert, or an error. -/
def seqFields (g : PField → Except String ℚ) : Except String (PField → ℚ) :=
  if h : ∀ f, (g f).isOk then .ok (fun f => ((g f).toOption).getD 0)
  else .error "ValueError"

/-- One iteration of the `for row in rows` loop of `merge_rows`. -/
def mergeStep (m : List (String × PBucket)) (r : ProdRow) :
    Except String (List (String × PBucket)) :=
  match keyOf r with
  | none => .ok m
  | some k =>
    let b := (lookupA m k).getD initBucket
    match seqFields (fun f => fieldFloat (r.fields f)) with
    | .error e => .error e
    | .ok vs =>
      .ok (updateA m k ⟨localTimeHmsPC (r.timestamp.getD ""), fun f => b.vals f + vs f⟩)

/-- The loop of `merge_rows`, started from an arbitrary accumulated map. -/
def mergeRowsFrom (m : List (String × PBucket)) :
    List ProdRow → Except String (List (String × PBucket))
  | [] => .ok m
  | r :: rest =>
    match mergeStep m r with
    | .error e => .error e
    | .ok m' => mergeRowsFrom m' rest

/-- `merge_rows` of `fetch_production.py`. -/
def mergeRows (rows : List ProdRow) : Except String (List (String × PBucket)) :=
  mergeRowsFrom [] rows

/-- All numeric fields of the row convert with `float` (numbers, booleans,
numeric strings, or absent/null/falsy values). -/
def cleanRow (r : ProdRow) : Prop := ∀ f, (fieldFloat (r.fields f)).isOk

instance (r : ProdRow) : Decidable (cleanRow r) := by
  unfold cleanRow; infer_instance

/-- Sum of a field over the rows merging under a given UTC key (absent and
null values contributing `0`). -/
def sumField (rows : List ProdRow) (k : String) (f : PField) : ℚ :=
  (rows.filter (fun r => keyOf r = some k)).foldr
    (fun r acc => fieldVal (r.fields f) + acc) 0


end Gridio.Production

namespace Gridio.Consumption

/-! ## `fetch_consumption.py`: `merge_rows` -/

/-- The numeric fields of a consumption record / bucket. -/
inductive CField where
  | flex | metered | profiled | total
  deriving DecidableEq, Fintype

/-- A raw consumption observation. -/
structure ConsRow where
  timestampUTC : Option String
  timestamp : Option String
  fields : CField → Option JVal

/-- A consumption merge bucket. -/
structure CBucket where
  time : String
  vals : CField → ℚ

/-- The all-zero bucket a fresh UTC key is initialized with. -/
def initBucket : CBucket := ⟨"", fun _ => 0⟩

/-- The UTC key a row merges under (`none`: the row is skipped). -/
def keyOf (r : ConsRow) : Option String := presentKey r.timestampUTC

/-- Convert every numeric field of a row (see `Production.seqFields`). -/
def seqFields (g : CField → Except String ℚ) : Except String (CField → ℚ) :=
  if h : ∀ f, (g f).isOk then .ok (fun f => ((g f).toOption).getD 0)
  else .error "ValueError"

/-- One iteration of the `for row in rows` loop of the consumption
`merge_rows`: like the production one but each contribution passes through
`abs`. -/
def mergeStep (m : List (String × CBucket)) (r : ConsRow) :
    Except String (List (String × CBucket)) :=
  match keyOf r with
  | none => .ok m
  | some k =>
    let b := (lookupA m k).getD initBucket
    match seqFields (fun f => fieldFloat (r.fields f)) with
    | .error e => .error e
    | .ok vs =>
      .ok (updateA m k ⟨localTimeHmsPC (r.timestamp.getD ""), fun f => b.vals f + |vs f|⟩)

/-- The loop of the consumption `merge_rows`. -/
def mergeRowsFrom (m : List (String × CBucket)) :
    List ConsRow → Except String (List (String × CBucket))
  | [] => .ok m
  | r :: rest =>
    match mergeStep m r with
    | .error e => .error e
    | .ok m' => mergeRowsFrom m' rest

/-- `merge_rows` of `fetch_consumption.py`. -/
def mergeRows (rows : List ConsRow) : Except String (List (String × CBucket)) :=
  mergeRowsFrom [] rows

/-- All numeric fields of the row convert with `float`. -/
def cleanRow (r : ConsRow) : Prop := ∀ f, (fieldFloat (r.fields f)).isOk

instance (r : ConsRow) : Decidable (cleanRow r) := by
  unfold cleanRow; infer_instance

/-- Sum of the absolute values of a field over the rows merging under a
given UTC key. -/
def sumAbsField (rows : List ConsRow) (k : String) (f : CField) : ℚ :=
  (rows.filter (fun r => keyOf r = some k)).foldr
    (fun r acc => |fieldVal (r.fields f)| + acc) 0

end Gridio.Consumption

namespace Gridio.Prices

/-! ## `fetch_prices.py`: helpers and `parse_esett_price_rows` -/

/-- `parse_float`: strip, reject empty, accept a comma as decimal separator
(`float(text.replace(",", "."))`). -/
def parse_float (value : String) : Except String ℚ :=
  let text := pyStrip value
  if text = "" then .error "empty numeric value"
  else
    match strFloat (pyReplace text ',' ".") with
    | some q => .ok q
    | none => .error "ValueError"

/-- Does the character list start with a `\d\d:\d\d:\d\d` match?  If so,
return those eight characters. -/
def hmsAt (cs : List Char) : Option (List Char) :=
  match cs with
  | a :: b :: c :: d :: e :: f :: g :: h :: _ =>
    if a.isDigit ∧ b.isDigit ∧ c = ':' ∧ d.isDigit ∧ e.isDigit ∧ f = ':' ∧
        g.isDigit ∧ h.isDigit then
      some [a, b, c, d, e, f, g, h]
    else none
  | _ => none

/-- Leftmost `\d\d:\d\d:\d\d` match in a character list
(`re.search` semantics). -/
def findHms : List Char → Option (List Char)
  | [] => none
  | c :: rest =>
    match hmsAt (c :: rest) with
    | some m => some m
    | none => findHms rest

/-- `extract_time_hms`: first `HH:MM:SS`-shaped substring, or `""`. -/
def extract_time_hms (value : String) : String :=
  match findHms value.data with
  | some m => String.mk m
  | none => ""

/-- An eSett price record (`EXP14/Prices` JSON row). -/
structure EsettRow where
  timestamp : Option String
  timestampUTC : Option String
  imblSalesPrice : Option JVal
  imblSpotDifferencePrice : Option JVal

/-- `row.get("timestamp") or row.get("timestampUTC")` followed by the `if not
ts` skip test: the first truthy (non-empty) timestamp string, if any. -/
def chosenTs (r : EsettRow) : Option String :=
  match presentKey r.timestamp with
  | some s => some s
  | none => presentKey r.timestampUTC

/-- The three price series built by `parse_esett_price_rows`. -/
structure PriceState where
  day_ahead : List (String × String)
  imbalance_up : List (String × String)
  imbalance_down : List (String × String)
  deriving DecidableEq

/-- One iteration of the `for row in rows` loop of `parse_esett_price_rows`:
derive the local TimeKey and the two numeric fields inside `try`, skipping the
record on any failure; store `imblSalesPrice - imblSpotDifferencePrice` as
day-ahead and `imblSalesPrice` as both imbalance directions. -/
def esettStep (st : PriceState) (r : EsettRow) : PriceState :=
  match chosenTs r with
  | none => st
  | some ts =>
    match localTimeHmsP ts, fieldFloat r.imblSalesPrice,
        fieldFloat r.imblSpotDifferencePrice with
    | some time_hms, .ok imbl_sales, .ok imbl_spot_diff =>
      { day_ahead := updateA st.day_ahead time_hms (format5 (imbl_sales - imbl_spot_diff)),
        imbalance_up := updateA st.imbalance_up time_hms (format5 imbl_sales),
        imbalance_down := updateA st.imbalance_down time_hms (format5 imbl_sales) }
    | _, _, _ => st

/-- `parse_esett_price_rows` of `fetch_prices.py`. -/
def parse_esett_price_rows (rows : List EsettRow) : PriceState :=
  rows.foldl esettStep ⟨[], [], []⟩

/-- The chosen timestamp string parses as an offset-aware ISO datetime
denoting the instant `t` (after the script's `strip`/`Z` normalization). -/
def denotesInstant (s : String) (t : Int) : Prop :=
  ∃ dt off, fromIso (pyReplace (pyStrip s) 'Z' "+00:00") = some dt ∧
    dt.offset = some off ∧ dt.instant off = t

/-! ## `fetch_prices.py`: `parse_fcr_n_prices` -/

/-- Drop leading U+FEFF characters (`lstrip("\ufeff")`). -/
def stripBom (s : String) : String := String.mk (s.data.dropWhile (· = '\uFEFF'))

/-- `str.splitlines` (newline-terminated final line yields no empty trailing
entry; the feed uses `\n` separators). -/
def splitLines (s : String) : List String :=
  match s.data.reverse with
  | [] => []
  | '\n' :: rest => (splitOnChar '\n' rest.reverse).map String.mk
  | _ => (splitOnChar '\n' s.data).map String.mk

/-- Fields of one CSV line under `csv.reader(..., delimiter=";")` (the feed
quotes no fields, so this is a plain split; a blank line yields no fields). -/
def csvCells (line : String) : List String :=
  if line = "" then [] else (splitOnChar ';' line.data).map String.mk

/-- ASCII lowercasing (`str.lower` on the header names in play). -/
def lowerAscii (s : String) : String := String.mk (s.data.map Char.toLower)

/-- Header cells: each cell stripped and BOM-stripped. -/
def headerCells (line : String) : List String :=
  (csvCells line).map (fun h => stripBom (pyStrip h))

/-- Python `list.index` (`none` models the raised `ValueError`). -/
def pyIndex (target : String) : List String → Option Nat
  | [] => none
  | h :: t => if h = target then some 0 else (pyIndex target t).map (· + 1)

/-- The body of the `for row in reader` loop of `parse_fcr_n_prices`. -/
def fcrRowStep (idx_time idx_fcr_n_price : Nat) (out : List (String × String))
    (line : String) : List (String × String) :=
  let row := csvCells line
  if row = [] ∨ row.length ≤ max idx_time idx_fcr_n_price then out
  else
    let time_raw := pyStrip (row.getD idx_time "")
    let price_raw := pyStrip (row.getD idx_fcr_n_price "")
    if time_raw = "" ∨ price_raw = "" then out
    else
      match extract_time_hms time_raw with
      | "" => out
      | time_hms =>
        match parse_float price_raw with
        | .error _ => out
        | .ok q => updateA out time_hms (format5 q)

/-- `parse_fcr_n_prices` of `fetch_prices.py`: locate the `Datum` and
`FCR-N Pris (EUR/MW)` columns case-insensitively (raising a `RuntimeError`,
the spec's `SchemaError`, if absent), then collect `TimeKey ↦ price`
formatted to five decimals.  Empty input or an empty header row returns an
empty mapping. -/
def parse_fcr_n_prices (csv_text : String) : Except String (List (String × String)) :=
  match splitLines (stripBom csv_text) with
  | [] => .ok []
  | headerLine :: dataLines =>
    match headerCells headerLine with
    | [] => .ok []
    | header =>
      let lowered := header.map lowerAscii
      match pyIndex "datum" lowered with
      | none => .error "Could not find required FCR column: Datum"
      | some idx_time =>
        match pyIndex "fcr-n pris (eur/mw)" lowered with
        | none => .error "Could not find required FCR column: FCR-N Pris (EUR/MW)"
        | some idx_fcr_n_price =>
          .ok (dataLines.foldl (fcrRowStep idx_time idx_fcr_n_price) [])

end Gridio.Prices

namespace Gridio.Freq

/-! ## `split_frequency_data.py` -/

/-- One input row as seen through `csv.DictReader` (`row.get` may return
`None` for a short row). -/
structure FreqRow where
  timestamp_fixed : Option String
  frequency : Option String

/-- `split_timestamp`: split at the first `T`, keep the first 8 characters of
the time part; `none` models the raised `ValueError`. -/
def split_timestamp (value : String) : Option (String × String) :=
  let raw := pyStrip value
  if ¬ (raw.data.contains 'T') then none
  else
    let day := String.mk (raw.data.takeWhile (· ≠ 'T'))
    let time_part := String.mk ((raw.data.dropWhile (· ≠ 'T')).drop 1)
    some (day, time_part.take 8)

/-- The per-day output state: for each day (in first-seen order) the rows
written to its `frequency.csv`, in write order. -/
abbrev DayFiles := List (String × List (String × String))

/-- Append one output row to a day's file, opening it (at the end) on first
use. -/
def appendRow (m : DayFiles) (day : String) (p : String × String) : DayFiles :=
  match m with
  | [] => [(day, [p])]
  | (d', rows) :: rest =>
    if d' = day then (d', rows ++ [p]) :: rest else (d', rows) :: appendRow rest day p

/-- The body of the `for row in reader` loop of `main`: strip both fields,
count rows with an empty or unsplittable timestamp as bad, write
`(time, frequency)` to the row's day otherwise. -/
def freqStep (st : DayFiles × Nat) (r : FreqRow) : DayFiles × Nat :=
  let timestamp := pyStrip (r.timestamp_fixed.getD "")
  let frequency := pyStrip (r.frequency.getD "")
  if timestamp = "" then (st.1, st.2 + 1)
  else
    match split_timestamp timestamp with
    | none => (st.1, st.2 + 1)
    | some dt => (appendRow st.1 dt.1 (dt.2, frequency), st.2)

/-- The split loop over all input rows: per-day files plus the count of
skipped malformed rows. -/
def splitFrequency (rows : List FreqRow) : DayFiles × Nat :=
  rows.foldl freqStep ([], 0)

/-- `main` of `split_frequency_data.py` after the input is read: the header
must contain the required columns (`SchemaError` otherwise). -/
def freqMain (fieldnames : List String) (rows : List FreqRow) :
    Except String (DayFiles × Nat) :=
  if "timestamp_fixed" ∈ fieldnames ∧ "frequency" ∈ fieldnames then
    .ok (splitFrequency rows)
  else .error "Input CSV must include columns: timestamp_fixed, frequency"

/-- The `(time, frequency)` pair an input row contributes, if not
malformed. -/
def goodPair (r : FreqRow) : Option (String × String) :=
  let timestamp := pyStrip (r.timestamp_fixed.getD "")
  let frequency := pyStrip (r.frequency.getD "")
  if timestamp = "" then none
  else (split_timestamp timestamp).map (fun dt => (dt.2, frequency))

/-- A row the splitter counts as malformed. -/
def badRow (r : FreqRow) : Prop := goodPair r = none

instance (r : FreqRow) : Decidable (badRow r) := by
  unfold badRow; infer_instance

end Gridio.Freq

namespace Gridio

/-! ## Insertion sort (Python `sorted` on distinct keys) -/

/-- Insert into a sorted list. -/
def insSorted {α : Type} [LinearOrder α] (a : α) : List α → List α
  | [] => [a]
  | b :: rest => if a ≤ b then a :: b :: rest else b :: insSorted a rest

/-- Insertion sort; models Python `sorted(...)` (stability is irrelevant
here: it is only applied to lists of distinct keys). -/
def pySorted {α : Type} [LinearOrder α] : List α → List α
  | [] => []
  | a :: rest => insSorted a (pySorted rest)

end Gridio

namespace Gridio.ProductionT

/-! ## Timestamp-level model of the production merge (for the ordering
claims)

`merge_rows` keys buckets by the raw UTC timestamp string and `main` emits
them sorted by that string.  For the ordering/uniqueness claims the strings
are modelled by the values they denote: `timestampUTC` by the instant it
denotes (one-day ISO-8601 UTC strings of the fixed `EXP16` format are
order-isomorphic to their instants), and the local `timestamp` string by the
civil seconds written in it (its `HH:MM:SS` component, which
`local_time_hms` extracts without conversion, is its civil time of day).
The numeric accumulation of the buckets is modelled in
`Gridio.Production`. -/

/-- A raw observation, reduced to the denotations of its two timestamps. -/
structure TRow where
  timestampUTC : Option Int
  timestamp : Option Int

/-- The display TimeKey `local_time_hms` computes for a row: the `HH:MM:SS`
of the local timestamp as written (empty when the field is absent). -/
def rowTime (r : TRow) : String :=
  match r.timestamp with
  | none => ""
  | some lc => hmsOfSecs (lc.emod 86400).toNat

/-- One merge iteration at the timestamp level: bucket per UTC key, display
TimeKey overwritten by each row sharing the key. -/
def mergeStepT (m : List (Int × String)) (r : TRow) : List (Int × String) :=
  match r.timestampUTC with
  | none => m
  | some t => updateA m t (rowTime r)

/-- The merge at the timestamp level. -/
def mergeT (rows : List TRow) : List (Int × String) :=
  rows.foldl mergeStepT []

/-- The display TimeKeys of one day's output, in emitted order
(`[merged[key] for key in sorted(merged.keys())]`). -/
def emittedTimes (rows : List TRow) : List String :=
  (pySorted ((mergeT rows).map (·.1))).map (fun k => ((lookupA (mergeT rows) k).getD ""))

end Gridio.ProductionT

namespace Gridio.ProductionT

/-! ### Decidable row-level hypotheses for the ordering claims -/

/-- The row's local timestamp string denotes the Europe/Stockholm rendering
of its UTC instant (a well-formed upstream record). -/
def validRow (r : TRow) : Prop :=
  match r.timestampUTC with
  | none => True
  | some t => r.timestamp = some (localCivil t)

instance (r : TRow) : Decidable (validRow r) := by
  unfold validRow; split <;> infer_instance

/-- The row's UTC instant lies in the UTC window of the given day. -/
def inWindow (y m d : Int) (r : TRow) : Prop :=
  match r.timestampUTC with
  | none => True
  | some t => (dayWindow y m d).1 ≤ t ∧ t < (dayWindow y m d).2

instance (y m d : Int) (r : TRow) : Decidable (inWindow y m d r) := by
  unfold inWindow; split <;> infer_instance

/-- The UTC instants observed in the input rows. -/
def rowInstants (rows : List TRow) : List Int :=
  rows.filterMap (·.timestampUTC)

/-- The Stockholm UTC offset is nondecreasing across the observed instants
(no fall-back transition separates any two of them). -/
def offsetMonoOn (rows : List TRow) : Prop :=
  ∀ t₁ ∈ rowInstants rows, ∀ t₂ ∈ rowInstants rows,
    t₁ ≤ t₂ → stockholmOffset t₁ ≤ stockholmOffset t₂

instance (rows : List TRow) : Decidable (offsetMonoOn rows) := by
  unfold offsetMonoOn; infer_instance

/-- Every observed instant's local civil time falls inside the given day's
local civil range (the local-side reading of "a timestamp in that day's
window"). -/
def localInDay (y m d : Int) (rows : List TRow) : Prop :=
  ∀ t ∈ rowInstants rows,
    midnightCivil y m d ≤ localCivil t ∧ localCivil t < midnightCivil y m d + 86400

instance (y m d : Int) (rows : List TRow) : Decidable (localInDay y m d rows) := by
  unfold localInDay; infer_instance

/-! ### Concrete inputs: the 2024-10-27 fall-back day (counterexample) and
the plain day 2024-01-01 (witness) -/

/-- 00:30 UTC on 2024-10-27 (CEST still active: local 02:30:00). -/
def cexRow1 : TRow :=
  ⟨some (86400 * daysFromCivil 2024 10 27 + 1800),
   some (localCivil (86400 * daysFromCivil 2024 10 27 + 1800))⟩

/-- 01:30 UTC on 2024-10-27 (CET: local 02:30:00 again). -/
def cexRow2 : TRow :=
  ⟨some (86400 * daysFromCivil 2024 10 27 + 5400),
   some (localCivil (86400 * daysFromCivil 2024 10 27 + 5400))⟩

/-- The fall-back-day input on which distinctness of TimeKeys fails. -/
def cexRows : List TRow := [cexRow1, cexRow2]

/-- 2024-01-01 00:00 Europe/Stockholm as an instant. -/
def janStart : Int := 86400 * daysFromCivil 2024 1 1 - 3600

/-- Witness rows on 2024-01-01: two quarter-hours, the first reported twice
(two zones). -/
def demoRowsT : List TRow :=
  [⟨some janStart, some (localCivil janStart)⟩,
   ⟨some (janStart + 900), some (localCivil (janStart + 900))⟩,
   ⟨some janStart, some (localCivil janStart)⟩]

end Gridio.ProductionT

namespace Gridio.Production

/-! ### Concrete production inputs -/

/-- SE1's record for 2024-01-01T00:00Z: `hydro=100`, all else zero. -/
def se1Row : ProdRow :=
  { timestampUTC := some "2024-01-01T00:00:00Z",
    timestamp := some "2024-01-01T01:00:00+01:00",
    fields := fun f => match f with
      | .hydro => some (.num 100)
      | _ => some (.num 0) }

/-- SE2's record for the same UTC instant: `hydro=50`, all else zero. -/
def se2Row : ProdRow :=
  { timestampUTC := some "2024-01-01T00:00:00Z",
    timestamp := some "2024-01-01T01:00:00+01:00",
    fields := fun f => match f with
      | .hydro => some (.num 50)
      | _ => some (.num 0) }

/-- A record whose `hydro` field holds a non-numeric string: `float("N/A")`
raises an uncaught `ValueError` in `merge_rows`. -/
def badFieldRow : ProdRow :=
  { timestampUTC := some "2024-01-01T00:15:00Z",
    timestamp := some "2024-01-01T01:15:00+01:00",
    fields := fun f => match f with
      | .hydro => some (.str "N/A")
      | _ => some (.num 0) }

/-- A record with no UTC timestamp (skipped by the merge even though its
fields are junk). -/
def noTsRow : ProdRow :=
  { timestampUTC := none,
    timestamp := some "garbled",
    fields := fun _ => some (.str "junk") }

/-- A record with a negative `hydro` value (production keeps the sign). -/
def negProdRow : ProdRow :=
  { timestampUTC := some "2024-01-01T00:00:00Z",
    timestamp := some "2024-01-01T01:00:00+01:00",
    fields := fun f => match f with
      | .hydro => some (.num (-5))
      | _ => none }

end Gridio.Production

namespace Gridio.Consumption

/-- A consumption record with a negative `flex` value (normalized by
`abs`). -/
def negConsRow : ConsRow :=
  { timestampUTC := some "2024-01-01T00:00:00Z",
    timestamp := some "2024-01-01T01:00:00+01:00",
    fields := fun f => match f with
      | .flex => some (.num (-5))
      | _ => none }

/-- A second zone's record for the same instant, `flex = 2`. -/
def posConsRow : ConsRow :=
  { timestampUTC := some "2024-01-01T00:00:00Z",
    timestamp := some "2024-01-01T01:00:00+01:00",
    fields := fun f => match f with
      | .flex => some (.num 2)
      | _ => none }

end Gridio.Consumption

namespace Gridio.Prices

/-- An eSett price record at 12:00 UTC (13:00 Stockholm) with
`imblSalesPrice=45`, `imblSpotDifferencePrice=5`. -/
def demoEsettRow : EsettRow :=
  { timestamp := some "2024-01-01T12:00:00Z",
    timestampUTC := some "2024-01-01T12:00:00Z",
    imblSalesPrice := some (.num 45),
    imblSpotDifferencePrice := some (.num 5) }

/-- An eSett record whose timestamp fails ISO parsing. -/
def badTsEsettRow : EsettRow :=
  { timestamp := some "not-a-timestamp",
    timestampUTC := none,
    imblSalesPrice := some (.num 1),
    imblSpotDifferencePrice := some (.num 2) }

/-- An eSett record with both timestamp fields missing. -/
def noTsEsettRow : EsettRow :=
  { timestamp := none,
    timestampUTC := some "",
    imblSalesPrice := some (.num 1),
    imblSpotDifferencePrice := none }

/-- An eSett record whose sales price is a non-numeric string (skipped by the
`try`/`except`). -/
def badPriceEsettRow : EsettRow :=
  { timestamp := some "2024-01-01T13:00:00Z",
    timestampUTC := some "2024-01-01T13:00:00Z",
    imblSalesPrice := some (.str "oops"),
    imblSpotDifferencePrice := some (.num 5) }

end Gridio.Prices

namespace Gridio.Freq

/-- Demonstration frequency input: two days interleaved, one malformed
timestamp, one empty timestamp. -/
def demoFreqRows : List FreqRow :=
  [⟨some "2024-01-01T00:00:00.123", some "50.01"⟩,
   ⟨some "2024-01-02T00:00:00.500", some "49.99"⟩,
   ⟨some "2024-01-01 00:00:01", some "50.02"⟩,
   ⟨some "", some "50.03"⟩,
   ⟨some "2024-01-01T00:00:02.000", some "50.00"⟩]

end Gridio.Freq

namespace Gridio

/-- Lexicographic (codepoint) order on TimeKey strings — the order Python's
`sorted` and string comparison use on `HH:MM:SS` keys. -/
def strLt (s t : String) : Prop := List.Lex (· < ·) s.data t.data

instance (s t : String) : Decidable (strLt s t) := by
  unfold strLt; infer_instance

end Gridio

namespace Gridio.Production

theorem sumField_cons_self {r : ProdRow} (rows : List ProdRow) {k : String} (f : PField)
    (hk : keyOf r = some k) :
    sumField (r :: rows) k f = fieldVal (r.fields f) + sumField rows k f := by
  simp [sumField, hk]

theorem sumField_cons_ne {r : ProdRow} (rows : List ProdRow) {k : String} (f : PField)
    (hk : keyOf r ≠ some k) :
    sumField (r :: rows) k f = sumField rows k f := by
  simp [sumField, hk]

theorem sumField_eq_zero {rows : List ProdRow} {k : String}
    (h : k ∉ rows.filterMap keyOf) (f : PField) : sumField rows k f = 0 := by
  induction rows with
  | nil => simp [sumField]
  | cons r rest ih =>
    rw [List.filterMap_cons] at h
    match hk : keyOf r with
    | none =>
      simp only [hk] at h
      rw [sumField_cons_ne rest f (by simp [hk]), ih h]
    | some k' =>
      simp only [hk, List.mem_cons] at h
      push_neg at h
      rw [sumField_cons_ne rest f
        (by rw [hk]; exact fun e => h.1 (Option.some.inj e).symm), ih h.2]

theorem seqFields_of_clean {r : ProdRow} (h : cleanRow r) :
    seqFields (fun f => fieldFloat (r.fields f)) = .ok (fun f => fieldVal (r.fields f)) := by
  have h' : ∀ f, (fieldFloat (r.fields f)).isOk = true := h
  unfold seqFields
  rw [dif_pos h']
  rfl

theorem mergeStep_clean {r : ProdRow} (h : cleanRow r) (m : List (String × PBucket)) :
    mergeStep m r =
      match keyOf r with
      | none => .ok m
      | some k =>
        .ok (updateA m k ⟨localTimeHmsPC (r.timestamp.getD ""),
          fun f => ((lookupA m k).getD initBucket).vals f + fieldVal (r.fields f)⟩) := by
  match hk : keyOf r with
  | none => simp [mergeStep, hk]
  | some k => simp [mergeStep, hk, seqFields_of_clean h]

end Gridio.Production

namespace Gridio

theorem lookupA_updateA {κ β : Type} [DecidableEq κ] (m : List (κ × β)) (k k' : κ) (v : β) :
    lookupA (updateA m k v) k' = if k = k' then some v else lookupA m k' := by
  induction m with
  | nil => by_cases h : k = k' <;> simp [updateA, lookupA, h]
  | cons p rest ih =>
    obtain ⟨k₀, v₀⟩ := p
    by_cases h0 : k₀ = k
    · subst h0
      by_cases h : k₀ = k' <;> simp [updateA, lookupA, h]
    · have hne : k ≠ k₀ := fun e => h0 e.symm
      by_cases h : k₀ = k'
      · subst h
        simp [updateA, h0, lookupA, hne]
      · simp [updateA, h0, lookupA, h, ih]

end Gridio

namespace Gridio.Production

/-- The merge loop, started from any accumulated map and run over clean rows,
succeeds and relates buckets to the starting map plus the per-key field
sums. -/
theorem mergeRowsFrom_spec (rows : List ProdRow) (h : ∀ r ∈ rows, cleanRow r)
    (m : List (String × PBucket)) :
    ∃ m', mergeRowsFrom m rows = .ok m' ∧
      ∀ k, if k ∈ rows.filterMap keyOf
        then ∃ b, lookupA m' k = some b ∧
          ∀ f, b.vals f = ((lookupA m k).getD initBucket).vals f + sumField rows k f
        else lookupA m' k = lookupA m k := by
  induction rows generalizing m with
  | nil =>
    refine ⟨m, rfl, fun k => ?_⟩
    simp [sumField]
  | cons r rest ih =>
    have hr : cleanRow r := h r (List.mem_cons_self r rest)
    have hrest : ∀ r' ∈ rest, cleanRow r' := fun r' hm => h r' (List.mem_cons_of_mem r hm)
    match hk : keyOf r with
    | none =>
      obtain ⟨m', hm', hspec⟩ := ih hrest m
      refine ⟨m', ?_, fun k => ?_⟩
      · rw [mergeRowsFrom, mergeStep_clean hr, hk]; exact hm'
      · have hthis := hspec k
        simp only [List.filterMap_cons, hk]
        by_cases hmem : k ∈ rest.filterMap keyOf
        · rw [if_pos hmem] at hthis ⊢
          obtain ⟨b, hb, hv⟩ := hthis
          refine ⟨b, hb, fun f => ?_⟩
          rw [hv f, sumField_cons_ne rest f (by simp [hk])]
        · rw [if_neg hmem] at hthis ⊢
          exact hthis
    | some k₀ =>
      obtain ⟨m', hm', hspec⟩ := ih hrest (updateA m k₀
        ⟨localTimeHmsPC (r.timestamp.getD ""),
          fun f => ((lookupA m k₀).getD initBucket).vals f + fieldVal (r.fields f)⟩)
      refine ⟨m', ?_, fun k => ?_⟩
      · rw [mergeRowsFrom, mergeStep_clean hr, hk]; exact hm'
      · have hstep := fun k' => lookupA_updateA m k₀ k'
          (⟨localTimeHmsPC (r.timestamp.getD ""),
            fun f => ((lookupA m k₀).getD initBucket).vals f + fieldVal (r.fields f)⟩ : PBucket)
        have hthis := hspec k
        simp only [List.filterMap_cons, hk]
        by_cases hmem : k ∈ rest.filterMap keyOf
        · rw [if_pos hmem] at hthis
          obtain ⟨b, hb, hv⟩ := hthis
          rw [if_pos (List.mem_cons_of_mem k₀ hmem)]
          refine ⟨b, hb, fun f => ?_⟩
          rw [hv f, hstep k]
          by_cases he : k₀ = k
          · subst he
            rw [if_pos rfl, sumField_cons_self rest f hk]
            simp only [Option.getD_some]
            ring
          · rw [if_neg he, sumField_cons_ne rest f
              (by rw [hk]; exact fun e => he (Option.some.inj e))]
        · rw [if_neg hmem] at hthis
          by_cases he : k₀ = k
          · subst he
            rw [if_pos (List.mem_cons_self k₀ _)]
            rw [hstep k₀, if_pos rfl] at hthis
            refine ⟨_, hthis, fun f => ?_⟩
            rw [sumField_cons_self rest f hk, sumField_eq_zero hmem, add_zero]
          · rw [if_neg (by
                simp only [List.mem_cons]
                rintro (e | hm2)
                · exact he e.symm
                · exact hmem hm2)]
            rw [hthis, hstep k]
            exact if_neg he

end Gridio.Production

namespace Gridio

theorem lookupA_nil {κ β : Type} [DecidableEq κ] (k : κ) :
    lookupA ([] : List (κ × β)) k = none := rfl

end Gridio

namespace Gridio.Production

/-- **C1.**  For every sequence of production raw observations (with
convertible numeric fields), merging accumulates records by their UTC
timestamp string: the merged map has exactly one bucket per distinct
non-empty UTC key, and every bucket's numeric fields are the sums — not the
last values — of the matching records' fields, with absent or null fields
contributing `0.0` (all buckets start from the all-zero initializer). -/
theorem claim1_merge_accumulates_by_utc_key (rows : List ProdRow)
    (h : ∀ r ∈ rows, cleanRow r) :
    ∃ m, mergeRows rows = .ok m ∧
      (∀ k, (lookupA m k).isSome ↔ k ∈ rows.filterMap keyOf) ∧
      (∀ k b, lookupA m k = some b → ∀ f, b.vals f = sumField rows k f) := by
  obtain ⟨m, hm, hspec⟩ := mergeRowsFrom_spec rows h []
  refine ⟨m, hm, fun k => ?_, fun k b hb f => ?_⟩
  · have hsp := hspec k
    by_cases hmem : k ∈ rows.filterMap keyOf
    · rw [if_pos hmem] at hsp
      obtain ⟨b, hb, _⟩ := hsp
      simp [hb, hmem]
    · rw [if_neg hmem] at hsp
      rw [lookupA_nil] at hsp
      simp [hsp, hmem]
  · have hsp := hspec k
    by_cases hmem : k ∈ rows.filterMap keyOf
    · rw [if_pos hmem] at hsp
      obtain ⟨b', hb', hv⟩ := hsp
      rw [hb'] at hb
      injection hb with e
      subst e
      rw [hv f, lookupA_nil]
      show initBucket.vals f + sumField rows k f = sumField rows k f
      show (0 : ℚ) + sumField rows k f = sumField rows k f
      rw [zero_add]
    · rw [if_neg hmem, lookupA_nil] at hsp
      rw [hsp] at hb
      cases hb

/-- Witness for C1: the two-zone scenario (`hydro=100` for SE1 and
`hydro=50` for SE2 at the same UTC instant) merges into exactly one row whose
`hydro` is `150`. -/
theorem claim1_witness :
    (∀ r ∈ [se1Row, se2Row], cleanRow r) ∧
    (∃ m, mergeRows [se1Row, se2Row] = .ok m ∧
      (∀ k, (lookupA m k).isSome ↔ k ∈ [se1Row, se2Row].filterMap keyOf) ∧
      (∀ k b, lookupA m k = some b → ∀ f, b.vals f = sumField [se1Row, se2Row] k f)) ∧
    ((mergeRows [se1Row, se2Row]).toOption.map (fun m => m.map (·.1)) =
      some ["2024-01-01T00:00:00Z"]) ∧
    sumField [se1Row, se2Row] "2024-01-01T00:00:00Z" .hydro = 150 :=
  ⟨by decide, claim1_merge_accumulates_by_utc_key [se1Row, se2Row] (by decide),
    by decide, by show (100 : ℚ) + (50 + 0) = 150; norm_num⟩

end Gridio.Production

namespace Gridio.Consumption

theorem sumAbsField_cons_self {r : ConsRow} (rows : List ConsRow) {k : String} (f : CField)
    (hk : keyOf r = some k) :
    sumAbsField (r :: rows) k f = |fieldVal (r.fields f)| + sumAbsField rows k f := by
  simp [sumAbsField, hk]

theorem sumAbsField_cons_ne {r : ConsRow} (rows : List ConsRow) {k : String} (f : CField)
    (hk : keyOf r ≠ some k) :
    sumAbsField (r :: rows) k f = sumAbsField rows k f := by
  simp [sumAbsField, hk]

theorem sumAbsField_eq_zero {rows : List ConsRow} {k : String}
    (h : k ∉ rows.filterMap keyOf) (f : CField) : sumAbsField rows k f = 0 := by
  induction rows with
  | nil => simp [sumAbsField]
  | cons r rest ih =>
    rw [List.filterMap_cons] at h
    match hk : keyOf r with
    | none =>
      simp only [hk] at h
      rw [sumAbsField_cons_ne rest f (by simp [hk]), ih h]
    | some k' =>
      simp only [hk, List.mem_cons] at h
      push_neg at h
      rw [sumAbsField_cons_ne rest f
        (by rw [hk]; exact fun e => h.1 (Option.some.inj e).symm), ih h.2]

theorem sumAbsField_nonneg (rows : List ConsRow) (k : String) (f : CField) :
    0 ≤ sumAbsField rows k f := by
  unfold sumAbsField
  induction rows.filter (fun r => keyOf r = some k) with
  | nil => simp
  | cons r rest ih => exact add_nonneg (abs_nonneg _) ih

theorem consSeqFields_of_clean {r : ConsRow} (h : cleanRow r) :
    seqFields (fun f => fieldFloat (r.fields f)) = .ok (fun f => fieldVal (r.fields f)) := by
  have h' : ∀ f, (fieldFloat (r.fields f)).isOk = true := h
  unfold seqFields
  rw [dif_pos h']
  rfl

theorem consMergeStep_clean {r : ConsRow} (h : cleanRow r) (m : List (String × CBucket)) :
    mergeStep m r =
      match keyOf r with
      | none => .ok m
      | some k =>
        .ok (updateA m k ⟨localTimeHmsPC (r.timestamp.getD ""),
          fun f => ((lookupA m k).getD initBucket).vals f + |fieldVal (r.fields f)|⟩) := by
  match hk : keyOf r with
  | none => simp [mergeStep, hk]
  | some k => simp [mergeStep, hk, consSeqFields_of_clean h]

/-- The consumption merge loop over clean rows: buckets accumulate the
absolute values of the fields. -/
theorem consMergeRowsFrom_spec (rows : List ConsRow) (h : ∀ r ∈ rows, cleanRow r)
    (m : List (String × CBucket)) :
    ∃ m', mergeRowsFrom m rows = .ok m' ∧
      ∀ k, if k ∈ rows.filterMap keyOf
        then ∃ b, lookupA m' k = some b ∧
          ∀ f, b.vals f = ((lookupA m k).getD initBucket).vals f + sumAbsField rows k f
        else lookupA m' k = lookupA m k := by
  induction rows generalizing m with
  | nil =>
    refine ⟨m, rfl, fun k => ?_⟩
    simp [sumAbsField]
  | cons r rest ih =>
    have hr : cleanRow r := h r (List.mem_cons_self r rest)
    have hrest : ∀ r' ∈ rest, cleanRow r' := fun r' hm => h r' (List.mem_cons_of_mem r hm)
    match hk : keyOf r with
    | none =>
      obtain ⟨m', hm', hspec⟩ := ih hrest m
      refine ⟨m', ?_, fun k => ?_⟩
      · rw [mergeRowsFrom, consMergeStep_clean hr, hk]; exact hm'
      · have hthis := hspec k
        simp only [List.filterMap_cons, hk]
        by_cases hmem : k ∈ rest.filterMap keyOf
        · rw [if_pos hmem] at hthis ⊢
          obtain ⟨b, hb, hv⟩ := hthis
          refine ⟨b, hb, fun f => ?_⟩
          rw [hv f, sumAbsField_cons_ne rest f (by simp [hk])]
        · rw [if_neg hmem] at hthis ⊢
          exact hthis
    | some k₀ =>
      obtain ⟨m', hm', hspec⟩ := ih hrest (updateA m k₀
        ⟨localTimeHmsPC (r.timestamp.getD ""),
          fun f => ((lookupA m k₀).getD initBucket).vals f + |fieldVal (r.fields f)|⟩)
      refine ⟨m', ?_, fun k => ?_⟩
      · rw [mergeRowsFrom, consMergeStep_clean hr, hk]; exact hm'
      · have hstep := fun k' => lookupA_updateA m k₀ k'
          (⟨localTimeHmsPC (r.timestamp.getD ""),
            fun f => ((lookupA m k₀).getD initBucket).vals f + |fieldVal (r.fields f)|⟩ : CBucket)
        have hthis := hspec k
        simp only [List.filterMap_cons, hk]
        by_cases hmem : k ∈ rest.filterMap keyOf
        · rw [if_pos hmem] at hthis
          obtain ⟨b, hb, hv⟩ := hthis
          rw [if_pos (List.mem_cons_of_mem k₀ hmem)]
          refine ⟨b, hb, fun f => ?_⟩
          rw [hv f, hstep k]
          by_cases he : k₀ = k
          · subst he
            rw [if_pos rfl, sumAbsField_cons_self rest f hk]
            simp only [Option.getD_some]
            ring
          · rw [if_neg he, sumAbsField_cons_ne rest f
              (by rw [hk]; exact fun e => he (Option.some.inj e))]
        · rw [if_neg hmem] at hthis
          by_cases he : k₀ = k
          · subst he
            rw [if_pos (List.mem_cons_self k₀ _)]
            rw [hstep k₀, if_pos rfl] at hthis
            refine ⟨_, hthis, fun f => ?_⟩
            rw [sumAbsField_cons_self rest f hk, sumAbsField_eq_zero hmem, add_zero]
          · rw [if_neg (by
                simp only [List.mem_cons]
                rintro (e | hm2)
                · exact he e.symm
                · exact hmem hm2)]
            rw [hthis, hstep k]
            exact if_neg he

/-- **C8.**  Every numeric column of every merged consumption bucket is the
sum of the absolute values of the contributing fields, hence non-negative,
while every production bucket is the plain (signed) sum of its contributing
fields, preserving each value's original sign. -/
theorem claim8_consumption_abs_production_signed :
    (∀ rows : List ConsRow, (∀ r ∈ rows, cleanRow r) →
      ∃ m, mergeRows rows = .ok m ∧
        ∀ k b, lookupA m k = some b →
          ∀ f, b.vals f = sumAbsField rows k f ∧ 0 ≤ b.vals f) ∧
    (∀ rows : List Production.ProdRow, (∀ r ∈ rows, Production.cleanRow r) →
      ∃ m, Production.mergeRows rows = .ok m ∧
        ∀ k b, lookupA m k = some b →
          ∀ f, b.vals f = Production.sumField rows k f) := by
  constructor
  · intro rows h
    obtain ⟨m, hm, hspec⟩ := consMergeRowsFrom_spec rows h []
    refine ⟨m, hm, fun k b hb f => ?_⟩
    have hsp := hspec k
    by_cases hmem : k ∈ rows.filterMap keyOf
    · rw [if_pos hmem] at hsp
      obtain ⟨b', hb', hv⟩ := hsp
      rw [hb'] at hb
      injection hb with e
      subst e
      have hval := hv f
      rw [lookupA_nil] at hval
      rw [show ((none : Option CBucket).getD initBucket).vals f = (0 : ℚ) from rfl,
        zero_add] at hval
      exact ⟨hval, hval ▸ sumAbsField_nonneg rows k f⟩
    · rw [if_neg hmem, lookupA_nil] at hsp
      rw [hsp] at hb
      cases hb
  · intro rows h
    obtain ⟨m, hm, hspec⟩ := Production.mergeRowsFrom_spec rows h []
    refine ⟨m, hm, fun k b hb f => ?_⟩
    have hsp := hspec k
    by_cases hmem : k ∈ rows.filterMap Production.keyOf
    · rw [if_pos hmem] at hsp
      obtain ⟨b', hb', hv⟩ := hsp
      rw [hb'] at hb
      injection hb with e
      subst e
      rw [hv f, lookupA_nil]
      show (0 : ℚ) + Production.sumField rows k f = Production.sumField rows k f
      rw [zero_add]
    · rw [if_neg hmem, lookupA_nil] at hsp
      rw [hsp] at hb
      cases hb

/-- Witness for C8: a consumption record with `flex = -5` plus one with
`flex = 2` merge to `|-5| + |2| = 7 ≥ 0`, while a production record with
`hydro = -5` merges to `-5` (sign preserved). -/
theorem claim8_witness :
    (∀ r ∈ [negConsRow, posConsRow], cleanRow r) ∧
    (∃ m, mergeRows [negConsRow, posConsRow] = .ok m ∧
      ∀ k b, lookupA m k = some b →
        ∀ f, b.vals f = sumAbsField [negConsRow, posConsRow] k f ∧ 0 ≤ b.vals f) ∧
    sumAbsField [negConsRow, posConsRow] "2024-01-01T00:00:00Z" .flex = 7 ∧
    (∀ r ∈ [Production.negProdRow], Production.cleanRow r) ∧
    (∃ m, Production.mergeRows [Production.negProdRow] = .ok m ∧
      ∀ k b, lookupA m k = some b →
        ∀ f, b.vals f = Production.sumField [Production.negProdRow] k f) ∧
    Production.sumField [Production.negProdRow] "2024-01-01T00:00:00Z" .hydro = -5 :=
  ⟨by decide,
    claim8_consumption_abs_production_signed.1 [negConsRow, posConsRow] (by decide),
    by show |(-5 : ℚ)| + (|(2 : ℚ)| + 0) = 7; norm_num,
    by decide,
    claim8_consumption_abs_production_signed.2 [Production.negProdRow] (by decide),
    by show (-5 : ℚ) + 0 = -5; norm_num⟩

end Gridio.Consumption

namespace Gridio

theorem roundHalfEven_intCast (n : Int) : roundHalfEven (n : ℚ) = n := by
  unfold roundHalfEven
  rw [Int.floor_intCast]
  norm_num

/-- Evaluation lemma for `format5` when the scaled value is a known
integer. -/
theorem format5_eval (q : ℚ) (n : Int) (h : q * 100000 = (n : ℚ)) :
    format5 q =
      (if n < 0 then "-" else "") ++ natRepr (n.natAbs / 100000) ++ "." ++
        pad5 (n.natAbs % 100000) := by
  unfold format5
  rw [h, roundHalfEven_intCast]

end Gridio

namespace Gridio.Production

theorem mergeRowsFrom_append (m : List (String × PBucket)) (rs1 rs2 : List ProdRow) :
    mergeRowsFrom m (rs1 ++ rs2) =
      match mergeRowsFrom m rs1 with
      | .error e => .error e
      | .ok m' => mergeRowsFrom m' rs2 := by
  induction rs1 generalizing m with
  | nil => rfl
  | cons r rest ih =>
    show mergeRowsFrom m (r :: (rest ++ rs2)) = _
    cases hstep : mergeStep m r with
    | error e => simp [mergeRowsFrom, hstep]
    | ok m' => simp [mergeRowsFrom, hstep, ih]

theorem mergeStep_skip {r : ProdRow} (h : keyOf r = none) (m : List (String × PBucket)) :
    mergeStep m r = .ok m := by
  simp [mergeStep, h]

end Gridio.Production

namespace Gridio.Consumption

theorem consMergeRowsFrom_append (m : List (String × CBucket)) (rs1 rs2 : List ConsRow) :
    mergeRowsFrom m (rs1 ++ rs2) =
      match mergeRowsFrom m rs1 with
      | .error e => .error e
      | .ok m' => mergeRowsFrom m' rs2 := by
  induction rs1 generalizing m with
  | nil => rfl
  | cons r rest ih =>
    show mergeRowsFrom m (r :: (rest ++ rs2)) = _
    cases hstep : mergeStep m r with
    | error e => simp [mergeRowsFrom, hstep]
    | ok m' => simp [mergeRowsFrom, hstep, ih]

theorem consMergeStep_skip {r : ConsRow} (h : keyOf r = none) (m : List (String × CBucket)) :
    mergeStep m r = .ok m := by
  simp [mergeStep, h]

end Gridio.Consumption

namespace Gridio.Prices

theorem esettStep_skip (st : PriceState) {r : EsettRow}
    (h : chosenTs r = none ∨ ∃ s, chosenTs r = some s ∧ localTimeHmsP s = none) :
    esettStep st r = st := by
  rcases h with h | ⟨s, hs, hp⟩
  · simp [esettStep, h]
  · simp [esettStep, hs, hp]

theorem esettStep_skip_badnum (st : PriceState) {r : EsettRow}
    (h : (∃ e, fieldFloat r.imblSalesPrice = .error e) ∨
         (∃ e, fieldFloat r.imblSpotDifferencePrice = .error e)) :
    esettStep st r = st := by
  match hts : chosenTs r with
  | none => simp [esettStep, hts]
  | some s =>
    match hp : localTimeHmsP s with
    | none => simp [esettStep, hts, hp]
    | some hms =>
      rcases h with ⟨e, he⟩ | ⟨e, he⟩
      · simp [esettStep, hts, hp, he]
      · cases hs : fieldFloat r.imblSalesPrice with
        | error e' => simp [esettStep, hts, hp, hs]
        | ok q => simp [esettStep, hts, hp, hs, he]

/-- The TimeKey `local_time_hms` derives for an offset-aware string denoting
the instant `t` is the Europe/Stockholm `HH:MM:SS` of `t`. -/
theorem localTimeHmsP_of_denotes {s : String} {t : Int} (hd : denotesInstant s t) :
    localTimeHmsP s = some (localTimeKey t) := by
  obtain ⟨dt, off, hiso, hoff, hins⟩ := hd
  unfold localTimeHmsP
  rw [hiso]
  simp only [hoff, hins]

/-- Unfolding of one eSett record's processing when everything parses. -/
theorem esettStep_run (st : PriceState) {r : EsettRow} {s key : String} {qs qd : ℚ}
    (hs : chosenTs r = some s) (hhms : localTimeHmsP s = some key)
    (hsales : fieldFloat r.imblSalesPrice = .ok qs)
    (hdiff : fieldFloat r.imblSpotDifferencePrice = .ok qd) :
    esettStep st r =
      ⟨updateA st.day_ahead key (format5 (qs - qd)),
       updateA st.imbalance_up key (format5 qs),
       updateA st.imbalance_down key (format5 qs)⟩ := by
  simp [esettStep, hs, hhms, hsales, hdiff]

end Gridio.Prices

namespace Gridio

/-- Counterexample to C6 as stated: in the production merge a single record
whose `hydro` field holds the non-numeric string `"N/A"` raises an uncaught
`ValueError` (`float("N/A")`), aborting the whole run instead of being
skipped — no output is produced for the remaining (valid) records. -/
theorem claim6_counterexample :
    Production.mergeRows [Production.se1Row, Production.badFieldRow] =
      .error "ValueError" := rfl

/-- **C6 (amended).**  A record with a missing/empty UTC timestamp never
aborts the production or consumption merge (it is skipped and the remaining
records produce the same output); in the eSett price pipeline a record with
an unparseable timestamp or a non-numeric price field is likewise skipped;
the frequency splitter counts and skips a malformed row.  However, in the
production (and consumption) merge a non-numeric *string* field value on a
record with a valid UTC timestamp raises an uncaught `ValueError` and aborts
the run. -/
theorem claim6_bad_records_recovered_except_prod_cons_nonnumeric :
    (∀ (rs1 rs2 : List Production.ProdRow) (r : Production.ProdRow),
      Production.keyOf r = none →
      Production.mergeRows (rs1 ++ r :: rs2) = Production.mergeRows (rs1 ++ rs2)) ∧
    (∀ (rs1 rs2 : List Consumption.ConsRow) (r : Consumption.ConsRow),
      Consumption.keyOf r = none →
      Consumption.mergeRows (rs1 ++ r :: rs2) = Consumption.mergeRows (rs1 ++ rs2)) ∧
    (∀ (st : Prices.PriceState) (r : Prices.EsettRow),
      (Prices.chosenTs r = none ∨
        ∃ s, Prices.chosenTs r = some s ∧ localTimeHmsP s = none) →
      Prices.esettStep st r = st) ∧
    (∀ (st : Prices.PriceState) (r : Prices.EsettRow),
      ((∃ e, fieldFloat r.imblSalesPrice = .error e) ∨
       (∃ e, fieldFloat r.imblSpotDifferencePrice = .error e)) →
      Prices.esettStep st r = st) ∧
    (∀ (st : Freq.DayFiles × Nat) (r : Freq.FreqRow), Freq.badRow r →
      Freq.freqStep st r = (st.1, st.2 + 1)) ∧
    (∀ (rs1 rs2 : List Production.ProdRow) (r : Production.ProdRow) (k : String),
      (∀ r' ∈ rs1, Production.cleanRow r') → Production.keyOf r = some k →
      ¬ Production.cleanRow r →
      ∃ e, Production.mergeRows (rs1 ++ r :: rs2) = .error e) := by
  refine ⟨?_, ?_, ?_, ?_, ?_, ?_⟩
  · intro rs1 rs2 r h
    unfold Production.mergeRows
    rw [Production.mergeRowsFrom_append, Production.mergeRowsFrom_append]
    cases Production.mergeRowsFrom [] rs1 with
    | error e => rfl
    | ok m' =>
      show Production.mergeRowsFrom m' (r :: rs2) = _
      rw [Production.mergeRowsFrom, Production.mergeStep_skip h]
  · intro rs1 rs2 r h
    unfold Consumption.mergeRows
    rw [Consumption.consMergeRowsFrom_append, Consumption.consMergeRowsFrom_append]
    cases Consumption.mergeRowsFrom [] rs1 with
    | error e => rfl
    | ok m' =>
      show Consumption.mergeRowsFrom m' (r :: rs2) = _
      rw [Consumption.mergeRowsFrom, Consumption.consMergeStep_skip h]
  · exact fun st r h => Prices.esettStep_skip st h
  · exact fun st r h => Prices.esettStep_skip_badnum st h
  · intro st r h
    unfold Freq.freqStep
    unfold Freq.badRow Freq.goodPair at h
    by_cases hts : pyStrip (r.timestamp_fixed.getD "") = ""
    · simp [hts]
    · rw [if_neg hts] at h ⊢
      cases hsp : Freq.split_timestamp (pyStrip (r.timestamp_fixed.getD "")) with
      | none => simp [hsp]
      | some dt => rw [hsp] at h; simp at h
  · intro rs1 rs2 r k h1 hk hbad
    obtain ⟨m', hm', _⟩ := Production.mergeRowsFrom_spec rs1 h1 []
    refine ⟨"ValueError", ?_⟩
    unfold Production.mergeRows
    rw [Production.mergeRowsFrom_append, hm']
    have hseq : Production.seqFields (fun f => fieldFloat (r.fields f)) =
        .error "ValueError" := by
      have hnot : ¬ ∀ f, (fieldFloat (r.fields f)).isOk = true := fun hall => hbad hall
      exact dif_neg hnot
    show Production.mergeRowsFrom m' (r :: rs2) = _
    simp [Production.mergeRowsFrom, Production.mergeStep, hk, hseq]

/-- Witness for the amended C6: a no-timestamp record with junk fields is
skipped by the production merge; an eSett record with an unparseable
timestamp, and one with a non-numeric price string, are skipped; a malformed
frequency row only increments the bad-row counter; and the production merge
does abort on a non-numeric string field. -/
theorem claim6_witness :
    (Production.mergeRows [Production.se1Row, Production.noTsRow] =
      Production.mergeRows [Production.se1Row]) ∧
    (Prices.esettStep ⟨[], [], []⟩ Prices.badTsEsettRow = ⟨[], [], []⟩) ∧
    (Prices.esettStep ⟨[], [], []⟩ Prices.badPriceEsettRow = ⟨[], [], []⟩) ∧
    (Freq.freqStep ([], 0) ⟨some "", some "50"⟩ = ([], 1)) ∧
    (∃ e, Production.mergeRows [Production.se1Row, Production.badFieldRow] = .error e) :=
  ⟨claim6_bad_records_recovered_except_prod_cons_nonnumeric.1 [Production.se1Row] []
      Production.noTsRow (by decide),
   claim6_bad_records_recovered_except_prod_cons_nonnumeric.2.2.1 ⟨[], [], []⟩
      Prices.badTsEsettRow (Or.inr ⟨"not-a-timestamp", by decide, by decide⟩),
   claim6_bad_records_recovered_except_prod_cons_nonnumeric.2.2.2.1 ⟨[], [], []⟩
      Prices.badPriceEsettRow (Or.inl ⟨"ValueError", rfl⟩),
   claim6_bad_records_recovered_except_prod_cons_nonnumeric.2.2.2.2.1 ([], 0)
      ⟨some "", some "50"⟩ (by decide),
   claim6_bad_records_recovered_except_prod_cons_nonnumeric.2.2.2.2.2 [Production.se1Row]
      [] Production.badFieldRow "2024-01-01T00:15:00Z" (by decide) (by decide) (by decide)⟩

end Gridio

namespace Gridio.Prices

/-- **C10.**  An eSett record whose chosen timestamp string (`timestamp`, or
`timestampUTC` when `timestamp` is absent or empty) is missing or fails ISO
parsing is silently skipped: no entry is added to any of the three series,
and the processing of all surrounding records is unaffected. -/
theorem claim10_unparseable_timestamp_skipped (rs1 rs2 : List EsettRow) (r : EsettRow)
    (h : chosenTs r = none ∨ ∃ s, chosenTs r = some s ∧ localTimeHmsP s = none) :
    parse_esett_price_rows (rs1 ++ r :: rs2) = parse_esett_price_rows (rs1 ++ rs2) := by
  unfold parse_esett_price_rows
  rw [List.foldl_append, List.foldl_append, List.foldl_cons, esettStep_skip _ h]

/-- Witness for C10: a record with timestamp `"not-a-timestamp"` between two
valid records drops out, and a record with both timestamp fields
missing/empty likewise; the remaining record still produces its series
entries. -/
theorem claim10_witness :
    parse_esett_price_rows [demoEsettRow, badTsEsettRow] =
      parse_esett_price_rows [demoEsettRow] ∧
    parse_esett_price_rows [noTsEsettRow, demoEsettRow] =
      parse_esett_price_rows [demoEsettRow] ∧
    (parse_esett_price_rows [demoEsettRow]).day_ahead.map (·.1) = ["13:00:00"] :=
  ⟨claim10_unparseable_timestamp_skipped [demoEsettRow] [] badTsEsettRow
      (Or.inr ⟨"not-a-timestamp", by decide, by decide⟩),
   claim10_unparseable_timestamp_skipped [] [demoEsettRow] noTsEsettRow
      (Or.inl (by decide)),
   by decide⟩

/-- **C3.**  The TimeKey under which an eSett record's derived prices are
stored is the Europe/Stockholm `HH:MM:SS` of the instant its timestamp
denotes (`astimezone` conversion of the parsed aware datetime), not the
`HH:MM:SS` written in any source-provided local-time string. -/
theorem claim3_timekey_is_stockholm_conversion (st : PriceState) (r : EsettRow)
    (s : String) (t : Int) (hs : chosenTs r = some s) (hd : denotesInstant s t)
    (hsales : (fieldFloat r.imblSalesPrice).isOk)
    (hdiff : (fieldFloat r.imblSpotDifferencePrice).isOk) :
    ∃ v₁ v₂ v₃,
      esettStep st r =
        ⟨updateA st.day_ahead (localTimeKey t) v₁,
         updateA st.imbalance_up (localTimeKey t) v₂,
         updateA st.imbalance_down (localTimeKey t) v₃⟩ := by
  obtain ⟨qs, hqs⟩ : ∃ q, fieldFloat r.imblSalesPrice = .ok q := by
    cases hx : fieldFloat r.imblSalesPrice with
    | error e => rw [hx] at hsales; cases hsales
    | ok q => exact ⟨q, rfl⟩
  obtain ⟨qd, hqd⟩ : ∃ q, fieldFloat r.imblSpotDifferencePrice = .ok q := by
    cases hx : fieldFloat r.imblSpotDifferencePrice with
    | error e => rw [hx] at hdiff; cases hdiff
    | ok q => exact ⟨q, rfl⟩
  exact ⟨format5 (qs - qd), format5 qs, format5 qs,
    esettStep_run st hs (localTimeHmsP_of_denotes hd) hqs hqd⟩

/-- Witness for C3: a record stamped `2024-01-01T12:00:00Z` is stored under
`13:00:00` (the Stockholm rendering of that instant), not under the
`12:00:00` written in the string. -/
theorem claim3_witness :
    (chosenTs demoEsettRow = some "2024-01-01T12:00:00Z") ∧
    denotesInstant "2024-01-01T12:00:00Z" (86400 * daysFromCivil 2024 1 1 + 43200) ∧
    (∃ v₁ v₂ v₃,
      esettStep ⟨[], [], []⟩ demoEsettRow =
        ⟨updateA [] (localTimeKey (86400 * daysFromCivil 2024 1 1 + 43200)) v₁,
         updateA [] (localTimeKey (86400 * daysFromCivil 2024 1 1 + 43200)) v₂,
         updateA [] (localTimeKey (86400 * daysFromCivil 2024 1 1 + 43200)) v₃⟩) ∧
    localTimeKey (86400 * daysFromCivil 2024 1 1 + 43200) = "13:00:00" ∧
    ("13:00:00" : String) ≠ "12:00:00" := by
  have hd : denotesInstant "2024-01-01T12:00:00Z" (86400 * daysFromCivil 2024 1 1 + 43200) :=
    ⟨⟨2024, 1, 1, 12, 0, 0, some 0⟩, 0, by decide, rfl, by decide⟩
  exact ⟨by decide, hd,
    claim3_timekey_is_stockholm_conversion ⟨[], [], []⟩ demoEsettRow _ _ (by decide) hd
      (by decide) (by decide),
    by decide, by decide⟩

/-- **C4.**  For an eSett record whose numeric fields parse, the stored
day-ahead price is `imblSalesPrice - imblSpotDifferencePrice` and both
imbalance directions are `imblSalesPrice`, each formatted with exactly five
decimal digits, at the record's local TimeKey. -/
theorem claim4_price_derivation (st : PriceState) (r : EsettRow) (s : String) (t : Int)
    (qs qd : ℚ) (hs : chosenTs r = some s) (hd : denotesInstant s t)
    (hsales : fieldFloat r.imblSalesPrice = .ok qs)
    (hdiff : fieldFloat r.imblSpotDifferencePrice = .ok qd) :
    esettStep st r =
      ⟨updateA st.day_ahead (localTimeKey t) (format5 (qs - qd)),
       updateA st.imbalance_up (localTimeKey t) (format5 qs),
       updateA st.imbalance_down (localTimeKey t) (format5 qs)⟩ :=
  esettStep_run st hs (localTimeHmsP_of_denotes hd) hsales hdiff

/-- Witness for C4: `imblSalesPrice=45`, `imblSpotDifferencePrice=5` yield
`day_ahead="40.00000"`, `imbalance_up="45.00000"`, `imbalance_down="45.00000"`
at the record's local TimeKey `13:00:00`. -/
theorem claim4_witness :
    esettStep ⟨[], [], []⟩ demoEsettRow =
      ⟨updateA [] (localTimeKey (86400 * daysFromCivil 2024 1 1 + 43200))
         (format5 ((45 : ℚ) - 5)),
       updateA [] (localTimeKey (86400 * daysFromCivil 2024 1 1 + 43200))
         (format5 (45 : ℚ)),
       updateA [] (localTimeKey (86400 * daysFromCivil 2024 1 1 + 43200))
         (format5 (45 : ℚ))⟩ ∧
    format5 ((45 : ℚ) - 5) = "40.00000" ∧
    format5 (45 : ℚ) = "45.00000" ∧
    localTimeKey (86400 * daysFromCivil 2024 1 1 + 43200) = "13:00:00" := by
  refine ⟨claim4_price_derivation ⟨[], [], []⟩ demoEsettRow "2024-01-01T12:00:00Z"
      (86400 * daysFromCivil 2024 1 1 + 43200) 45 5 (by decide)
      ⟨⟨2024, 1, 1, 12, 0, 0, some 0⟩, 0, by decide, rfl, by decide⟩ rfl rfl,
    ?_, ?_, by decide⟩
  · rw [format5_eval _ 4000000 (by norm_num)]
    decide
  · rw [format5_eval _ 4500000 (by norm_num)]
    decide

end Gridio.Prices

namespace Gridio.Prices

theorem pyIndex_eq_none_of_not_mem {x : String} :
    ∀ {l : List String}, x ∉ l → pyIndex x l = none
  | [], _ => rfl
  | h :: t, hm => by
    have h1 : ¬ h = x := fun e => hm (e ▸ List.mem_cons_self h t)
    have h2 : x ∉ t := fun m => hm (List.mem_cons_of_mem h m)
    simp [pyIndex, h1, pyIndex_eq_none_of_not_mem h2]

/-- Counterexample to C5 as stated ("fails with a SchemaError whenever either
column is absent"): the empty CSV text contains neither required column, yet
the parser returns an empty mapping instead of raising. -/
theorem claim5_counterexample :
    parse_fcr_n_prices "" = .ok [] ∧
    ∀ e, parse_fcr_n_prices "" ≠ Except.error e :=
  ⟨rfl, fun e h =>
    Except.noConfusion
      ((rfl : parse_fcr_n_prices "" = Except.ok ([] : List (String × String))) ▸ h)⟩

/-- **C5 (amended).**  When the CSV text has a nonempty header row, a
case-insensitive lookup locates the `Datum` and `FCR-N Pris (EUR/MW)`
columns and the parser fails with the schema error if either is absent
(empty input instead yields an empty mapping); with both present — even in
mixed case — the scenario row `2024-01-01 00:00:00;12,5` yields
`fcrn="12.50000"` at TimeKey `00:00:00`. -/
theorem claim5_fcr_schema_and_parse :
    (∀ (csv_text hline : String) (rest : List String) (h0 : String) (hs : List String),
      splitLines (stripBom csv_text) = hline :: rest →
      headerCells hline = h0 :: hs →
      ("datum" ∉ (headerCells hline).map lowerAscii ∨
       "fcr-n pris (eur/mw)" ∉ (headerCells hline).map lowerAscii) →
      ∃ e, parse_fcr_n_prices csv_text = .error e) ∧
    parse_fcr_n_prices "Datum;Fcr-N Pris (EUR/MW)\n2024-01-01 00:00:00;12,5" =
      .ok [("00:00:00", "12.50000")] := by
  constructor
  · intro csv_text hline rest h0 hs hsplit hcells hmiss
    rw [hcells] at hmiss
    simp only [parse_fcr_n_prices, hsplit, hcells]
    rcases hmiss with hmiss | hmiss
    · rw [pyIndex_eq_none_of_not_mem hmiss]
      exact ⟨_, rfl⟩
    · cases hidx : pyIndex "datum" ((h0 :: hs).map lowerAscii) with
      | none => exact ⟨_, rfl⟩
      | some i =>
        rw [pyIndex_eq_none_of_not_mem hmiss]
        exact ⟨_, rfl⟩
  · have hval : ((digitsVal ['1', '2'] : ℚ) +
        (digitsVal ['5'] : ℚ) / (10 : ℚ) ^ (['5'] : List Char).length) * 100000 =
        ((1250000 : Int) : ℚ) := by
      show (((12 : Nat) : ℚ) + ((5 : Nat) : ℚ) / (10 : ℚ) ^ (1 : Nat)) * 100000 =
        ((1250000 : Int) : ℚ)
      push_cast
      norm_num
    have h5 : format5 ((digitsVal ['1', '2'] : ℚ) +
        (digitsVal ['5'] : ℚ) / (10 : ℚ) ^ (['5'] : List Char).length) = "12.50000" := by
      rw [format5_eval _ 1250000 hval]
      decide
    show Except.ok [("00:00:00", format5 ((digitsVal ['1', '2'] : ℚ) +
        (digitsVal ['5'] : ℚ) / (10 : ℚ) ^ (['5'] : List Char).length))] = _
    rw [h5]

/-- Witness for C5: a header lacking both columns makes the parser fail, and
the mixed-case scenario parses. -/
theorem claim5_witness :
    (∃ e, parse_fcr_n_prices "Foo;Bar\n1;2" = .error e) ∧
    parse_fcr_n_prices "Datum;Fcr-N Pris (EUR/MW)\n2024-01-01 00:00:00;12,5" =
      .ok [("00:00:00", "12.50000")] :=
  ⟨claim5_fcr_schema_and_parse.1 "Foo;Bar\n1;2" "Foo;Bar" ["1;2"] "Foo" ["Bar"]
      (by decide) (by decide) (Or.inl (by decide)),
   claim5_fcr_schema_and_parse.2⟩

end Gridio.Prices

namespace Gridio

theorem stockholmOffset_eq_or (t : Int) :
    stockholmOffset t = 3600 ∨ stockholmOffset t = 7200 := by
  unfold stockholmOffset
  split
  · exact Or.inr rfl
  · exact Or.inl rfl

theorem stockholmOffset_eq_7200_iff (t : Int) :
    stockholmOffset t = 7200 ↔
      dstStartSecs (yearOf t) ≤ t ∧ t < dstEndSecs (yearOf t) := by
  unfold stockholmOffset
  split
  · next hc => simp [hc]
  · next hc => simp [hc]

/-- The EU transitions happen at one hour past a UTC midnight, so the hour
between 22:00 and 23:00 UTC before any local midnight contains no
transition: if the offset one hour earlier is not summer time, neither is
it at 23:00 UTC. -/
theorem ediv_86400_shift (k r : Int) (h0 : 0 ≤ r) (h1 : r < 86400) :
    (r + k * 86400).ediv 86400 = k := by
  rw [show Int.ediv (r + k * 86400) 86400 = (r + k * 86400) / 86400 from rfl,
    Int.add_mul_ediv_right _ _ (by norm_num : (86400 : Int) ≠ 0),
    Int.ediv_eq_zero_of_lt h0 h1, zero_add]

theorem offset_step_consistent (k : Int)
    (h : stockholmOffset (86400 * k - 7200) ≠ 7200) :
    stockholmOffset (86400 * k - 3600) = 3600 := by
  rcases stockholmOffset_eq_or (86400 * k - 3600) with h' | h'
  · exact h'
  exfalso
  have hy : yearOf (86400 * k - 3600) = yearOf (86400 * k - 7200) := by
    unfold yearOf
    rw [show 86400 * k - 3600 = 82800 + (k - 1) * 86400 from by ring,
      show 86400 * k - 7200 = 79200 + (k - 1) * 86400 from by ring,
      ediv_86400_shift _ _ (by norm_num) (by norm_num),
      ediv_86400_shift _ _ (by norm_num) (by norm_num)]
  have hin := (stockholmOffset_eq_7200_iff _).mp h'
  rw [hy] at hin
  have hnotin : ¬ (dstStartSecs (yearOf (86400 * k - 7200)) ≤ 86400 * k - 7200 ∧
      86400 * k - 7200 < dstEndSecs (yearOf (86400 * k - 7200))) :=
    fun hc => h ((stockholmOffset_eq_7200_iff _).mpr hc)
  unfold dstStartSecs dstEndSecs at hin hnotin
  omega

/-- At a local midnight the day-window resolver's chosen offset agrees with
the zone's offset at the resulting instant. -/
theorem utcFromLocal_offset (k : Int) :
    stockholmOffset (utcFromLocal (86400 * k)) + utcFromLocal (86400 * k) = 86400 * k := by
  unfold utcFromLocal
  by_cases h : stockholmOffset (86400 * k - 7200) = 7200
  · rw [if_pos h, h]; ring
  · rw [if_neg h, offset_step_consistent k h]; ring

/-- **C7.**  For every valid calendar date the day window runs from the
date's Stockholm local midnight (converted to UTC) to the next date's local
midnight, with `start < end`; its length is exactly 23, 24 or 25 hours and
differs from 24 hours exactly when the zone's UTC offset differs between the
window's endpoints (a daylight-saving transition day). -/
theorem claim7_day_window (y m d : Int) (hv : validDate y m d) :
    (dayWindow y m d).1 < (dayWindow y m d).2 ∧
    ((dayWindow y m d).2 - (dayWindow y m d).1 = 82800 ∨
     (dayWindow y m d).2 - (dayWindow y m d).1 = 86400 ∨
     (dayWindow y m d).2 - (dayWindow y m d).1 = 90000) ∧
    ((dayWindow y m d).2 - (dayWindow y m d).1 ≠ 86400 ↔
      stockholmOffset (dayWindow y m d).1 ≠ stockholmOffset (dayWindow y m d).2) := by
  have hfst : (dayWindow y m d).1 = utcFromLocal (86400 * daysFromCivil y m d) := rfl
  have hsnd : (dayWindow y m d).2 = utcFromLocal (86400 * (daysFromCivil y m d + 1)) := by
    show utcFromLocal (86400 * daysFromCivil y m d + 86400) = _
    rw [show 86400 * daysFromCivil y m d + 86400 = 86400 * (daysFromCivil y m d + 1) from
      by ring]
  rw [hfst, hsnd]
  have h1 := utcFromLocal_offset (daysFromCivil y m d)
  have h2 := utcFromLocal_offset (daysFromCivil y m d + 1)
  rcases stockholmOffset_eq_or (utcFromLocal (86400 * daysFromCivil y m d)) with hs | hs <;>
    rcases stockholmOffset_eq_or
      (utcFromLocal (86400 * (daysFromCivil y m d + 1))) with he | he <;>
    exact ⟨by omega, by omega, by omega⟩

/-- Witness for C7 on three 2024 dates: an ordinary day (24 h), the
spring-forward day (23 h) and the fall-back day (25 h). -/
theorem claim7_witness :
    validDate 2024 6 15 ∧ validDate 2024 3 31 ∧ validDate 2024 10 27 ∧
    ((dayWindow 2024 6 15).1 < (dayWindow 2024 6 15).2 ∧
      ((dayWindow 2024 6 15).2 - (dayWindow 2024 6 15).1 = 82800 ∨
       (dayWindow 2024 6 15).2 - (dayWindow 2024 6 15).1 = 86400 ∨
       (dayWindow 2024 6 15).2 - (dayWindow 2024 6 15).1 = 90000) ∧
      ((dayWindow 2024 6 15).2 - (dayWindow 2024 6 15).1 ≠ 86400 ↔
        stockholmOffset (dayWindow 2024 6 15).1 ≠ stockholmOffset (dayWindow 2024 6 15).2)) ∧
    ((dayWindow 2024 3 31).1 < (dayWindow 2024 3 31).2 ∧
      ((dayWindow 2024 3 31).2 - (dayWindow 2024 3 31).1 = 82800 ∨
       (dayWindow 2024 3 31).2 - (dayWindow 2024 3 31).1 = 86400 ∨
       (dayWindow 2024 3 31).2 - (dayWindow 2024 3 31).1 = 90000) ∧
      ((dayWindow 2024 3 31).2 - (dayWindow 2024 3 31).1 ≠ 86400 ↔
        stockholmOffset (dayWindow 2024 3 31).1 ≠ stockholmOffset (dayWindow 2024 3 31).2)) ∧
    ((dayWindow 2024 10 27).1 < (dayWindow 2024 10 27).2 ∧
      ((dayWindow 2024 10 27).2 - (dayWindow 2024 10 27).1 = 82800 ∨
       (dayWindow 2024 10 27).2 - (dayWindow 2024 10 27).1 = 86400 ∨
       (dayWindow 2024 10 27).2 - (dayWindow 2024 10 27).1 = 90000) ∧
      ((dayWindow 2024 10 27).2 - (dayWindow 2024 10 27).1 ≠ 86400 ↔
        stockholmOffset (dayWindow 2024 10 27).1 ≠ stockholmOffset (dayWindow 2024 10 27).2)) ∧
    (dayWindow 2024 6 15).2 - (dayWindow 2024 6 15).1 = 86400 ∧
    (dayWindow 2024 3 31).2 - (dayWindow 2024 3 31).1 = 82800 ∧
    (dayWindow 2024 10 27).2 - (dayWindow 2024 10 27).1 = 90000 :=
  ⟨by decide, by decide, by decide,
    claim7_day_window 2024 6 15 (by decide),
    claim7_day_window 2024 3 31 (by decide),
    claim7_day_window 2024 10 27 (by decide),
    by decide, by decide, by decide⟩

end Gridio


namespace Gridio

theorem insSorted_perm {α : Type} [LinearOrder α] (a : α) (l : List α) :
    List.Perm (insSorted a l) (a :: l) := by
  induction l with
  | nil => exact List.Perm.refl _
  | cons b rest ih =>
    unfold insSorted
    by_cases h : a ≤ b
    · rw [if_pos h]
    · rw [if_neg h]
      exact (List.Perm.cons b ih).trans (List.Perm.swap a b rest)

theorem pySorted_perm {α : Type} [LinearOrder α] (l : List α) :
    List.Perm (pySorted l) l := by
  induction l with
  | nil => exact List.Perm.refl _
  | cons a rest ih => exact (insSorted_perm a (pySorted rest)).trans (List.Perm.cons a ih)

/-- Reading a map with distinct keys back through its own key list recovers
the values. -/
theorem lookup_map_keys {β : Type} (dflt : β) :
    ∀ (files : List (String × β)), (files.map (·.1)).Nodup →
      (files.map (·.1)).map (fun d => (lookupA files d).getD dflt) = files.map (·.2)
  | [], _ => rfl
  | (d₀, v₀) :: rest, hnd => by
    simp only [List.map_cons, List.nodup_cons] at hnd ⊢
    have htail : (rest.map (fun x => x.1)).map
          (fun d => (lookupA ((d₀, v₀) :: rest) d).getD dflt) =
        (rest.map (fun x => x.1)).map (fun d => (lookupA rest d).getD dflt) :=
      List.map_congr_left (fun d hd => by
        have hne : ¬ d₀ = d := fun e => hnd.1 (e ▸ hd)
        simp [lookupA, hne])
    rw [htail, lookup_map_keys dflt rest hnd.2]
    simp [lookupA]

end Gridio

namespace Gridio.Freq

theorem appendRow_keys (d : String) (p : String × String) :
    ∀ files : DayFiles, (appendRow files d p).map (·.1) =
      if d ∈ files.map (·.1) then files.map (·.1) else files.map (·.1) ++ [d]
  | [] => by simp [appendRow]
  | (d', rows) :: rest => by
    by_cases h : d' = d
    · subst h
      simp [appendRow]
    · have hne : ¬ d = d' := fun e => h e.symm
      simp only [appendRow, if_neg h, List.map_cons, List.mem_cons]
      rw [appendRow_keys d p rest]
      by_cases hm : d ∈ rest.map (·.1)
      · simp [hm, hne]
      · simp [hm, hne]

theorem appendRow_flatten (d : String) (p : String × String) :
    ∀ files : DayFiles,
      List.Perm (((appendRow files d p).map (·.2)).flatten)
        ((files.map (·.2)).flatten ++ [p])
  | [] => by simp [appendRow]
  | (d', rows) :: rest => by
    by_cases h : d' = d
    · subst h
      simp only [appendRow, if_true, List.map_cons, List.flatten_cons, List.append_assoc]
      exact List.Perm.append_left rows List.perm_append_comm
    · simp only [appendRow, if_neg h, List.map_cons, List.flatten_cons]
      rw [List.append_assoc]
      exact List.Perm.append_left rows (appendRow_flatten d p rest)

/-- The split loop: flattened per-day outputs are (a permutation of) the
good rows' `(time, frequency)` pairs appended to the starting state, and the
bad-row counter adds the number of malformed rows. -/
theorem freq_fold_spec (rows : List FreqRow) : ∀ st : DayFiles × Nat,
    (List.Perm (((rows.foldl freqStep st).1.map (·.2)).flatten)
      ((st.1.map (·.2)).flatten ++ rows.filterMap goodPair)) ∧
    (rows.foldl freqStep st).2 = st.2 + rows.countP (fun r => (goodPair r).isNone) := by
  induction rows with
  | nil => intro st; simp
  | cons r rest ih =>
    intro st
    rw [List.foldl_cons]
    by_cases hts : pyStrip (r.timestamp_fixed.getD "") = ""
    · have hstep : freqStep st r = (st.1, st.2 + 1) := by
        simp [freqStep, hts]
      have hgood : goodPair r = none := by
        simp [goodPair, hts]
      obtain ⟨ihp, ihc⟩ := ih (st.1, st.2 + 1)
      rw [hstep]
      refine ⟨by simpa [hgood] using ihp, ?_⟩
      rw [ihc]
      simp [List.countP_cons, hgood]
      omega
    · cases hsp : split_timestamp (pyStrip (r.timestamp_fixed.getD "")) with
      | none =>
        have hstep : freqStep st r = (st.1, st.2 + 1) := by
          simp [freqStep, hts, hsp]
        have hgood : goodPair r = none := by
          simp [goodPair, hts, hsp]
        obtain ⟨ihp, ihc⟩ := ih (st.1, st.2 + 1)
        rw [hstep]
        refine ⟨by simpa [hgood] using ihp, ?_⟩
        rw [ihc]
        simp [List.countP_cons, hgood]
        omega
      | some dt =>
        have hstep : freqStep st r =
            (appendRow st.1 dt.1 (dt.2, pyStrip (r.frequency.getD "")), st.2) := by
          simp [freqStep, hts, hsp]
        have hgood : goodPair r = some (dt.2, pyStrip (r.frequency.getD "")) := by
          simp [goodPair, hts, hsp]
        obtain ⟨ihp, ihc⟩ :=
          ih (appendRow st.1 dt.1 (dt.2, pyStrip (r.frequency.getD "")), st.2)
        rw [hstep]
        constructor
        · refine ihp.trans ?_
          rw [List.filterMap_cons, hgood]
          refine (List.Perm.append_right _ (appendRow_flatten _ _ st.1)).trans ?_
          rw [List.append_assoc]
          exact List.Perm.refl _
        · rw [ihc]
          simp [List.countP_cons, hgood]

theorem freq_fold_nodup (rows : List FreqRow) : ∀ st : DayFiles × Nat,
    (st.1.map (·.1)).Nodup → (((rows.foldl freqStep st).1).map (·.1)).Nodup := by
  induction rows with
  | nil => intro st h; exact h
  | cons r rest ih =>
    intro st h
    rw [List.foldl_cons]
    refine ih (freqStep st r) ?_
    unfold freqStep
    by_cases hts : pyStrip (r.timestamp_fixed.getD "") = ""
    · simpa [hts] using h
    · rw [if_neg hts]
      cases hsp : split_timestamp (pyStrip (r.timestamp_fixed.getD "")) with
      | none => exact h
      | some dt =>
        show ((appendRow st.1 dt.1 _).map (·.1)).Nodup
        rw [appendRow_keys]
        by_cases hm : dt.1 ∈ st.1.map (·.1)
        · rwa [if_pos hm]
        · rw [if_neg hm]
          refine List.Nodup.append h (List.nodup_singleton _) ?_
          intro x hx hx'
          rw [List.mem_singleton] at hx'
          exact hm (hx' ▸ hx)

/-- **C9.**  Splitting a frequency table by day and concatenating the
per-day output rows in sorted day order reproduces exactly the multiset of
`(time, frequency)` pairs derived from the input rows, minus the rows counted
as malformed (empty timestamp or timestamp without a `T` separator); the
malformed count equals the number of such rows. -/
theorem claim9_split_roundtrip (fieldnames : List String) (rows : List FreqRow)
    (hcols : "timestamp_fixed" ∈ fieldnames ∧ "frequency" ∈ fieldnames) :
    ∃ files bad, freqMain fieldnames rows = .ok (files, bad) ∧
      List.Perm
        (((pySorted (files.map (·.1))).map (fun d => (lookupA files d).getD [])).flatten)
        (rows.filterMap goodPair) ∧
      bad = rows.countP (fun r => (goodPair r).isNone) := by
  refine ⟨(splitFrequency rows).1, (splitFrequency rows).2, ?_, ?_, ?_⟩
  · unfold freqMain
    rw [if_pos hcols]
  · have hnd : (((splitFrequency rows).1).map (·.1)).Nodup :=
      freq_fold_nodup rows ([], 0) (by simp)
    have hperm1 :
        List.Perm
          (((pySorted (((splitFrequency rows).1).map (·.1))).map
            (fun d => (lookupA (splitFrequency rows).1 d).getD [])).flatten)
          (((((splitFrequency rows).1).map (·.1)).map
            (fun d => (lookupA (splitFrequency rows).1 d).getD [])).flatten) :=
      ((pySorted_perm _).map _).flatten
    refine hperm1.trans ?_
    rw [lookup_map_keys [] _ hnd]
    have hsp := (freq_fold_spec rows ([], 0)).1
    simpa using hsp
  · have hsp := (freq_fold_spec rows ([], 0)).2
    simpa using hsp

/-- Witness for C9 on a five-row input spanning two days with two malformed
rows. -/
theorem claim9_witness :
    ("timestamp_fixed" ∈ ["timestamp_fixed", "frequency"] ∧
      "frequency" ∈ ["timestamp_fixed", "frequency"]) ∧
    (∃ files bad,
      freqMain ["timestamp_fixed", "frequency"] demoFreqRows = .ok (files, bad) ∧
      List.Perm
        (((pySorted (files.map (·.1))).map (fun d => (lookupA files d).getD [])).flatten)
        (demoFreqRows.filterMap goodPair) ∧
      bad = demoFreqRows.countP (fun r => (goodPair r).isNone)) ∧
    splitFrequency demoFreqRows =
      ([("2024-01-01", [("00:00:00", "50.01"), ("00:00:02", "50.00")]),
        ("2024-01-02", [("00:00:00", "49.99")])], 2) :=
  ⟨by decide, claim9_split_roundtrip ["timestamp_fixed", "frequency"] demoFreqRows
      (by decide), by decide⟩

end Gridio.Freq

namespace Gridio

theorem strLt_irrefl : ∀ (cs : List Char), ¬ List.Lex (· < ·) cs cs
  | [], h => by cases h
  | c :: rest, h => by
    cases h with
    | rel hr => exact lt_irrefl c hr
    | cons ht => exact strLt_irrefl rest ht

theorem strLt_ne {s t : String} (h : strLt s t) : s ≠ t := by
  intro e
  subst e
  exact strLt_irrefl s.data h

theorem digitChar_lt {a b : Nat} (ha : a ≤ 9) (hb : b ≤ 9) (h : a < b) :
    digitChar a < digitChar b := by
  interval_cases a <;> interval_cases b <;> decide

theorem hmsChars_lex {a b : Nat} (hab : a < b) (hb : b < 86400) :
    List.Lex (· < ·) (hmsChars a) (hmsChars b) := by
  have ha : a < 86400 := lt_trans hab hb
  unfold hmsChars pad2Chars
  simp only [List.cons_append, List.nil_append]
  rcases Nat.lt_trichotomy (a / 3600) (b / 3600) with h1 | h1 | h1
  · rcases Nat.lt_or_ge (a / 3600 / 10) (b / 3600 / 10) with h2 | h2
    · exact List.Lex.rel (digitChar_lt (by omega) (by omega) h2)
    · have he : a / 3600 / 10 = b / 3600 / 10 := by omega
      rw [he]
      exact List.Lex.cons (List.Lex.rel (digitChar_lt (by omega) (by omega) (by omega)))
  · rw [h1]
    refine List.Lex.cons (List.Lex.cons (List.Lex.cons ?_))
    rcases Nat.lt_trichotomy (a / 60 % 60) (b / 60 % 60) with h2 | h2 | h2
    · rcases Nat.lt_or_ge (a / 60 % 60 / 10) (b / 60 % 60 / 10) with h3 | h3
      · exact List.Lex.rel (digitChar_lt (by omega) (by omega) h3)
      · have he : a / 60 % 60 / 10 = b / 60 % 60 / 10 := by omega
        rw [he]
        exact List.Lex.cons (List.Lex.rel (digitChar_lt (by omega) (by omega) (by omega)))
    · rw [h2]
      refine List.Lex.cons (List.Lex.cons (List.Lex.cons ?_))
      have h3 : a % 60 < b % 60 := by omega
      rcases Nat.lt_or_ge (a % 60 / 10) (b % 60 / 10) with h4 | h4
      · exact List.Lex.rel (digitChar_lt (by omega) (by omega) h4)
      · have he : a % 60 / 10 = b % 60 / 10 := by omega
        rw [he]
        exact List.Lex.cons (List.Lex.rel (digitChar_lt (by omega) (by omega) (by omega)))
    · exfalso; omega
  · exfalso; omega

theorem hmsOfSecs_strLt {a b : Nat} (hab : a < b) (hb : b < 86400) :
    strLt (hmsOfSecs a) (hmsOfSecs b) := hmsChars_lex hab hb

theorem emod_86400_shift (D r : Int) (h0 : 0 ≤ r) (h1 : r < 86400) :
    (86400 * D + r).emod 86400 = r := by
  rw [show (86400 * D + r) = r + D * 86400 from by ring,
    show Int.emod (r + D * 86400) 86400 = (r + D * 86400) % 86400 from rfl,
    Int.add_mul_emod_self]
  exact Int.emod_eq_of_lt h0 h1

/-- The Stockholm TimeKey is strictly increasing between instants whose
offsets do not step back and whose local civil times fall in one civil
day. -/
theorem localTimeKey_strLt {y m d t₁ t₂ : Int}
    (hoff : stockholmOffset t₁ ≤ stockholmOffset t₂)
    (h₁ : midnightCivil y m d ≤ localCivil t₁ ∧
      localCivil t₁ < midnightCivil y m d + 86400)
    (h₂ : midnightCivil y m d ≤ localCivil t₂ ∧
      localCivil t₂ < midnightCivil y m d + 86400)
    (hlt : t₁ < t₂) :
    strLt (localTimeKey t₁) (localTimeKey t₂) := by
  have hc : localCivil t₁ < localCivil t₂ := by
    unfold localCivil at *
    omega
  unfold midnightCivil at h₁ h₂
  have e₁ : (localCivil t₁).emod 86400 =
      localCivil t₁ - 86400 * daysFromCivil y m d := by
    conv_lhs => rw [show localCivil t₁ =
      86400 * daysFromCivil y m d + (localCivil t₁ - 86400 * daysFromCivil y m d) from
        by ring]
    exact emod_86400_shift _ _ (by omega) (by omega)
  have e₂ : (localCivil t₂).emod 86400 =
      localCivil t₂ - 86400 * daysFromCivil y m d := by
    conv_lhs => rw [show localCivil t₂ =
      86400 * daysFromCivil y m d + (localCivil t₂ - 86400 * daysFromCivil y m d) from
        by ring]
    exact emod_86400_shift _ _ (by omega) (by omega)
  unfold localTimeKey
  rw [e₁, e₂]
  exact hmsOfSecs_strLt (by omega) (by omega)

theorem updateA_keys {κ β : Type} [DecidableEq κ] (k : κ) (v : β) :
    ∀ m : List (κ × β), (updateA m k v).map (·.1) =
      if k ∈ m.map (·.1) then m.map (·.1) else m.map (·.1) ++ [k]
  | [] => by simp [updateA]
  | (k', v') :: rest => by
    by_cases h : k' = k
    · subst h
      simp [updateA]
    · have hne : ¬ k = k' := fun e => h e.symm
      simp only [updateA, if_neg h, List.map_cons, List.mem_cons]
      rw [updateA_keys k v rest]
      by_cases hm : k ∈ rest.map (·.1)
      · simp [hm, hne]
      · simp [hm, hne]

theorem mem_updateA {κ β : Type} [DecidableEq κ] {p : κ × β} (k : κ) (v : β) :
    ∀ m : List (κ × β), p ∈ updateA m k v → p ∈ m ∨ p = (k, v)
  | [], h => by
    simp only [updateA, List.mem_singleton] at h
    exact Or.inr h
  | (k', v') :: rest, h => by
    by_cases he : k' = k
    · subst he
      simp only [updateA, if_true, List.mem_cons] at h
      rcases h with h | h
      · exact Or.inr h
      · exact Or.inl (List.mem_cons_of_mem _ h)
    · simp only [updateA, if_neg he, List.mem_cons] at h
      rcases h with h | h
      · exact Or.inl (h ▸ List.mem_cons_self _ _)
      · rcases mem_updateA k v rest h with h' | h'
        · exact Or.inl (List.mem_cons_of_mem _ h')
        · exact Or.inr h'

theorem lookupA_mem_of_mem_keys {κ β : Type} [DecidableEq κ] {k : κ} :
    ∀ {m : List (κ × β)}, k ∈ m.map (·.1) → ∃ v, lookupA m k = some v ∧ (k, v) ∈ m
  | [], h => by simp at h
  | (k', v') :: rest, h => by
    by_cases he : k' = k
    · subst he
      exact ⟨v', by simp [lookupA], by simp⟩
    · have hk : k ∈ rest.map (·.1) := by
        simp only [List.map_cons, List.mem_cons] at h
        rcases h with e | h'
        · exact absurd e.symm he
        · exact h'
      obtain ⟨v, hv, hm⟩ := lookupA_mem_of_mem_keys hk
      exact ⟨v, by simp [lookupA, he, hv], List.mem_cons_of_mem _ hm⟩

theorem insSorted_sorted {α : Type} [LinearOrder α] (a : α) (l : List α)
    (h : l.Pairwise (· ≤ ·)) : (insSorted a l).Pairwise (· ≤ ·) := by
  induction l with
  | nil => simp [insSorted]
  | cons b rest ih =>
    unfold insSorted
    by_cases hab : a ≤ b
    · rw [if_pos hab]
      refine List.Pairwise.cons (fun x hx => ?_) h
      rcases List.mem_cons.mp hx with e | hx'
      · exact e ▸ hab
      · exact le_trans hab (List.rel_of_pairwise_cons h hx')
    · rw [if_neg hab]
      have hba : b ≤ a := le_of_not_le hab
      refine List.Pairwise.cons (fun x hx => ?_) (ih h.of_cons)
      rcases List.mem_cons.mp ((insSorted_perm a rest).mem_iff.mp hx) with e | hx'
      · exact e ▸ hba
      · exact List.rel_of_pairwise_cons h hx'

theorem pySorted_sorted {α : Type} [LinearOrder α] (l : List α) :
    (pySorted l).Pairwise (· ≤ ·) := by
  induction l with
  | nil => simp [pySorted]
  | cons a rest ih => exact insSorted_sorted a (pySorted rest) ih

theorem pairwise_lt_of_le_nodup {l : List Int}
    (hle : l.Pairwise (· ≤ ·)) (hnd : l.Nodup) : l.Pairwise (· < ·) :=
  (hle.and hnd).imp (fun h => lt_of_le_of_ne h.1 h.2)

end Gridio

namespace Gridio.ProductionT

theorem mergeT_fold_nodup (rows : List TRow) :
    ∀ m : List (Int × String), (m.map (·.1)).Nodup →
      ((rows.foldl mergeStepT m).map (·.1)).Nodup := by
  induction rows with
  | nil => intro m h; exact h
  | cons r rest ih =>
    intro m h
    rw [List.foldl_cons]
    refine ih (mergeStepT m r) ?_
    unfold mergeStepT
    cases r.timestampUTC with
    | none => exact h
    | some t =>
      rw [updateA_keys]
      by_cases hm : t ∈ m.map (·.1)
      · rwa [if_pos hm]
      · rw [if_neg hm]
        refine List.Nodup.append h (List.nodup_singleton _) ?_
        intro x hx hx'
        rw [List.mem_singleton] at hx'
        exact hm (hx' ▸ hx)

theorem mergeT_fold_keys_sub (rows : List TRow) :
    ∀ m : List (Int × String), ∀ t ∈ (rows.foldl mergeStepT m).map (·.1),
      t ∈ m.map (·.1) ∨ t ∈ rowInstants rows := by
  induction rows with
  | nil => intro m t ht; exact Or.inl ht
  | cons r rest ih =>
    intro m t ht
    rw [List.foldl_cons] at ht
    rcases ih (mergeStepT m r) t ht with h | h
    · unfold mergeStepT at h
      cases hts : r.timestampUTC with
      | none =>
        rw [hts] at h
        exact Or.inl h
      | some t₀ =>
        rw [hts, updateA_keys] at h
        by_cases hm : t₀ ∈ m.map (·.1)
        · rw [if_pos hm] at h
          exact Or.inl h
        · rw [if_neg hm] at h
          rcases List.mem_append.mp h with h' | h'
          · exact Or.inl h'
          · rw [List.mem_singleton] at h'
            exact Or.inr (by simp [rowInstants, List.filterMap_cons, hts, h'])
    · exact Or.inr (by
        unfold rowInstants at h ⊢
        rw [List.filterMap_cons]
        cases r.timestampUTC
        · exact h
        · exact List.mem_cons_of_mem _ h)

theorem mergeT_fold_vals (rows : List TRow) (hvalid : ∀ r ∈ rows, validRow r) :
    ∀ m : List (Int × String), (∀ p ∈ m, (p : Int × String).2 = localTimeKey p.1) →
      ∀ p ∈ rows.foldl mergeStepT m, (p : Int × String).2 = localTimeKey p.1 := by
  induction rows with
  | nil => intro m h p hp; exact h p hp
  | cons r rest ih =>
    intro m h p hp
    rw [List.foldl_cons] at hp
    have hr : validRow r := hvalid r (List.mem_cons_self r rest)
    have hrest : ∀ r' ∈ rest, validRow r' := fun r' hm => hvalid r' (List.mem_cons_of_mem r hm)
    refine ih hrest (mergeStepT m r) ?_ p hp
    intro q hq
    unfold mergeStepT at hq
    cases hts : r.timestampUTC with
    | none =>
      rw [hts] at hq
      exact h q hq
    | some t =>
      rw [hts] at hq
      rcases mem_updateA t (rowTime r) m hq with h' | h'
      · exact h q h'
      · unfold validRow at hr
        rw [hts] at hr
        rw [h']
        show rowTime r = localTimeKey t
        unfold rowTime
        rw [hr]
        rfl

/-- **C2 (amended).**  For a day's merged output, provided every row's local
timestamp is the Stockholm rendering of its UTC instant, every UTC instant
lies in the day's window, the Stockholm offset does not step back between
any two observed instants (no fall-back transition), and the local civil
times fall inside the day's civil range, the emitted TimeKeys (buckets
sorted by UTC key) are strictly increasing, hence pairwise distinct.  On a
fall-back day the offset steps back and two distinct UTC keys can share a
TimeKey. -/
theorem claim2_timekeys_sorted_distinct (y m d : Int) (rows : List TRow)
    (hvalid : ∀ r ∈ rows, validRow r)
    (hwin : ∀ r ∈ rows, inWindow y m d r)
    (hmono : offsetMonoOn rows)
    (hloc : localInDay y m d rows) :
    (emittedTimes rows).Pairwise strLt ∧ (emittedTimes rows).Nodup := by
  have hnd : ((mergeT rows).map (·.1)).Nodup :=
    mergeT_fold_nodup rows [] (by simp)
  have hsortnd : (pySorted ((mergeT rows).map (·.1))).Nodup :=
    ((pySorted_perm _).nodup_iff).mpr hnd
  have hsortlt : (pySorted ((mergeT rows).map (·.1))).Pairwise (· < ·) :=
    pairwise_lt_of_le_nodup (pySorted_sorted _) hsortnd
  have hmem : ∀ t ∈ pySorted ((mergeT rows).map (·.1)), t ∈ rowInstants rows := by
    intro t ht
    rcases mergeT_fold_keys_sub rows [] t ((pySorted_perm _).mem_iff.mp ht) with h | h
    · simp at h
    · exact h
  have hmap : ∀ t ∈ pySorted ((mergeT rows).map (·.1)),
      (lookupA (mergeT rows) t).getD "" = localTimeKey t := by
    intro t ht
    obtain ⟨v, hv, hvm⟩ := lookupA_mem_of_mem_keys ((pySorted_perm _).mem_iff.mp ht)
    rw [hv]
    exact mergeT_fold_vals rows hvalid [] (by simp) (t, v) hvm
  have hpair : (emittedTimes rows).Pairwise strLt := by
    unfold emittedTimes
    rw [List.pairwise_map]
    refine hsortlt.imp_of_mem ?_
    intro t₁ t₂ h₁ h₂ hlt
    rw [hmap t₁ h₁, hmap t₂ h₂]
    exact localTimeKey_strLt
      (hmono t₁ (hmem t₁ h₁) t₂ (hmem t₂ h₂) (le_of_lt hlt))
      (hloc t₁ (hmem t₁ h₁)) (hloc t₂ (hmem t₂ h₂)) hlt
  exact ⟨hpair, hpair.imp (fun h => strLt_ne h)⟩

/-- Counterexample to C2 as stated: on the fall-back day 2024-10-27, the
valid in-window records at 00:30 UTC and 01:30 UTC both carry local time
02:30:00, so the merged output has two rows with the same TimeKey — the
emitted TimeKeys are neither pairwise distinct nor strictly ascending. -/
theorem claim2_counterexample :
    (∀ r ∈ cexRows, validRow r) ∧
    (∀ r ∈ cexRows, inWindow 2024 10 27 r) ∧
    emittedTimes cexRows = ["02:30:00", "02:30:00"] ∧
    ¬ (emittedTimes cexRows).Pairwise strLt ∧
    ¬ (emittedTimes cexRows).Nodup := by
  refine ⟨by decide, by decide, by decide, ?_, by decide⟩
  intro hp
  rw [show emittedTimes cexRows = ["02:30:00", "02:30:00"] from by decide] at hp
  exact strLt_ne (List.rel_of_pairwise_cons hp (List.mem_singleton_self _)) rfl

/-- Witness for the amended C2 on the plain day 2024-01-01: three records,
one UTC instant reported twice, give strictly increasing distinct TimeKeys
`00:00:00 < 00:15:00`. -/
theorem claim2_witness :
    (∀ r ∈ demoRowsT, validRow r) ∧
    (∀ r ∈ demoRowsT, inWindow 2024 1 1 r) ∧
    offsetMonoOn demoRowsT ∧
    localInDay 2024 1 1 demoRowsT ∧
    ((emittedTimes demoRowsT).Pairwise strLt ∧ (emittedTimes demoRowsT).Nodup) ∧
    emittedTimes demoRowsT = ["00:00:00", "00:15:00"] :=
  ⟨by decide, by decide, by decide, by decide,
    claim2_timekeys_sorted_distinct 2024 1 1 demoRowsT (by decide) (by decide)
      (by decide) (by decide),
    by decide⟩

end Gridio.ProductionT
